import Mathlib

set_option maxHeartbeats 2000000
set_option maxRecDepth 200000

/-!
Verification of the MaxBF Brainfuck interpreter (src/maxbf.c).

The C code is shallowly embedded: machine bytes are `Nat` reduced modulo 256,
C arrays are `List Nat` together with the C structs' explicit `size` fields,
pointers into those arrays are indices, and `fpos_t` stream positions are
offsets into the program character list.  Allocation (realloc/malloc success)
is an explicit boolean parameter `allocOk` supplied to every operation that
may grow storage.  The interpreter loop is a fuel-indexed iteration of a
one-character step function.
-/

namespace MaxBF

/-- Status values of the `ExecutionStatus` enum in maxbf.c. -/
inductive ExecutionStatus where
  | STATUS_OK
  | STATUS_ERR_ALLOC
  | STATUS_ERR_LBOUND
  | STATUS_ERR_NESTING
deriving DecidableEq, Repr

/-- INITIAL_TAPE_SIZE in maxbf.c. -/
def INITIAL_TAPE_SIZE : Nat := 1000

/-- INITIAL_JUMP_STACK_SIZE in maxbf.c. -/
def INITIAL_JUMP_STACK_SIZE : Nat := 100

/-- CELL_VALUE_EOF in maxbf.c: what the current cell is set to on EOF. -/
def CELL_VALUE_EOF : Nat := 0

/-- DEBUG_NUM_CELLS in maxbf.c: cells shown on each side of the current one. -/
def DEBUG_NUM_CELLS : Nat := 3

/-- The `Tape` struct: `data` is the allocated byte array, `size` the struct's
size field, `pointer` the current-cell pointer as an index into `data`. -/
structure Tape where
  data : List Nat
  size : Nat
  pointer : Nat
deriving DecidableEq, Repr

/-- The `JumpStack` struct: `data` is the allocated `fpos_t` array (positions
are offsets into the program), `size` the struct's size field, `pos` the
index of the latest entry (`jump_stack->pos - jump_stack->data` in C; 0 when
empty, entries live at indices 1..pos), and `skip_pos` the skip marker
(`NULL` is `none`, otherwise the index of the marked entry). -/
structure JumpStack where
  data : List Nat
  size : Nat
  pos : Nat
  skip_pos : Option Nat
deriving DecidableEq, Repr

/-- The byte `*tape->pointer` currently pointed at. -/
def tape_cell (tape : Tape) : Nat := tape.data.getD tape.pointer 0

/-- init_tape: calloc INITIAL_TAPE_SIZE zeroed cells, pointer at the start.
(The C init can itself fail; claims are about the post-init machine, so the
model starts from a successfully initialized tape.) -/
def init_tape : Tape :=
  { data := List.replicate INITIAL_TAPE_SIZE 0
    size := INITIAL_TAPE_SIZE
    pointer := 0 }

/-- init_jump_stack: malloc INITIAL_JUMP_STACK_SIZE entries, empty stack, no
skip marker.  The malloc'd memory is uninitialized in C; it is modelled as
zero-filled, and every slot is written by a push before it is ever read. -/
def init_jump_stack : JumpStack :=
  { data := List.replicate INITIAL_JUMP_STACK_SIZE 0
    size := INITIAL_JUMP_STACK_SIZE
    pos := 0
    skip_pos := none }

/-- tape_move_right: no-op under an active skip marker; doubles the size field
and reallocates (zero-filling the new region) when the pointer sits on the
last allocated cell; then advances the pointer.  On realloc failure the C
code has already executed `tape->size *= 2` and returns with data and
pointer untouched. -/
def tape_move_right (allocOk : Bool) (tape : Tape) (jump_stack : JumpStack) :
    ExecutionStatus × Tape :=
  if jump_stack.skip_pos.isSome then (.STATUS_OK, tape)
  else if tape.pointer = tape.size - 1 then
    if allocOk then
      (.STATUS_OK,
       { data := tape.data ++ List.replicate (tape.size * 2 - tape.size) 0
         size := tape.size * 2
         pointer := tape.pointer + 1 })
    else (.STATUS_ERR_ALLOC, { tape with size := tape.size * 2 })
  else (.STATUS_OK, { tape with pointer := tape.pointer + 1 })

/-- tape_move_left: no-op under an active skip marker; left-boundary error at
index 0; otherwise moves the pointer one cell left. -/
def tape_move_left (tape : Tape) (jump_stack : JumpStack) :
    ExecutionStatus × Tape :=
  if jump_stack.skip_pos.isSome then (.STATUS_OK, tape)
  else if tape.pointer = 0 then (.STATUS_ERR_LBOUND, tape)
  else (.STATUS_OK, { tape with pointer := tape.pointer - 1 })

/-- tape_increment: no-op under an active skip marker; otherwise increments
the current byte with wraparound (`(*tape->pointer)++` on unsigned char). -/
def tape_increment (tape : Tape) (jump_stack : JumpStack) :
    ExecutionStatus × Tape :=
  if jump_stack.skip_pos.isSome then (.STATUS_OK, tape)
  else
    (.STATUS_OK,
     { tape with data := tape.data.set tape.pointer ((tape_cell tape + 1) % 256) })

/-- tape_decrement: no-op under an active skip marker; otherwise decrements
the current byte with wraparound (`(*tape->pointer)--` on unsigned char). -/
def tape_decrement (tape : Tape) (jump_stack : JumpStack) :
    ExecutionStatus × Tape :=
  if jump_stack.skip_pos.isSome then (.STATUS_OK, tape)
  else
    (.STATUS_OK,
     { tape with data := tape.data.set tape.pointer ((tape_cell tape + 255) % 256) })

/-- tape_output: no-op under an active skip marker; otherwise emits the
current byte (`fputc`).  The second component is the list of bytes written. -/
def tape_output (tape : Tape) (jump_stack : JumpStack) :
    ExecutionStatus × List Nat :=
  if jump_stack.skip_pos.isSome then (.STATUS_OK, [])
  else (.STATUS_OK, [tape_cell tape])

/-- tape_input: no-op under an active skip marker; otherwise consumes one
byte from the input (storing it through the `(char)` cast, i.e. mod 256), or
stores CELL_VALUE_EOF at end of input. -/
def tape_input (tape : Tape) (jump_stack : JumpStack) (input : List Nat) :
    ExecutionStatus × Tape × List Nat :=
  if jump_stack.skip_pos.isSome then (.STATUS_OK, tape, input)
  else
    match input with
    | [] =>
        (.STATUS_OK,
         { tape with data := tape.data.set tape.pointer CELL_VALUE_EOF }, [])
    | ch :: rest =>
        (.STATUS_OK,
         { tape with data := tape.data.set tape.pointer (ch % 256) }, rest)

/-- jump_stack_push: doubles the size field and reallocates when `pos` sits on
the last slot (`jump_stack->pos == jump_stack->data + jump_stack->size - 1`),
rebasing `pos` and `skip_pos` as offsets; then advances `pos` and writes the
bookmark there.  On realloc failure the C code has already executed
`jump_stack->size *= 2` and returns with data, pos and skip_pos untouched.
Realloc does not initialize the new region; the model zero-fills it, and a
slot is always written before it is read. -/
def jump_stack_push (allocOk : Bool) (jump_stack : JumpStack) (pos : Nat) :
    ExecutionStatus × JumpStack :=
  if jump_stack.pos = jump_stack.size - 1 then
    if allocOk then
      let grown : JumpStack :=
        { jump_stack with
          data := jump_stack.data ++ List.replicate (jump_stack.size * 2 - jump_stack.size) 0
          size := jump_stack.size * 2 }
      (.STATUS_OK,
       { grown with pos := grown.pos + 1, data := grown.data.set (grown.pos + 1) pos })
    else (.STATUS_ERR_ALLOC, { jump_stack with size := jump_stack.size * 2 })
  else
    (.STATUS_OK,
     { jump_stack with
       pos := jump_stack.pos + 1
       data := jump_stack.data.set (jump_stack.pos + 1) pos })

/-- tape_jump_if_zero: pushes the current bookmark (even while skipping; the
push can fail with the allocation error); when not already skipping and the
current cell is zero, sets the skip marker to the just-pushed entry. -/
def tape_jump_if_zero (allocOk : Bool) (tape : Tape) (jump_stack : JumpStack)
    (pos : Nat) : ExecutionStatus × JumpStack :=
  let pushed := jump_stack_push allocOk jump_stack pos
  if pushed.1 ≠ .STATUS_OK then pushed
  else if pushed.2.skip_pos.isSome then (.STATUS_OK, pushed.2)
  else if tape_cell tape = 0 then
    (.STATUS_OK, { pushed.2 with skip_pos := some pushed.2.pos })
  else (.STATUS_OK, pushed.2)

/-- jump_stack_pop: nesting error on an empty stack (the out-parameter is then
left unwritten; the model returns 0 there); otherwise hands back the top
bookmark and retreats `pos`. -/
def jump_stack_pop (jump_stack : JumpStack) : ExecutionStatus × JumpStack × Nat :=
  if jump_stack.pos = 0 then (.STATUS_ERR_NESTING, jump_stack, 0)
  else
    (.STATUS_OK, { jump_stack with pos := jump_stack.pos - 1 },
     jump_stack.data.getD jump_stack.pos 0)

/-- The skip-marker clearing at the head of tape_jump_if_not_zero: when the
marker equals the stack top, the matching bracket of the skip has been
reached and the marker is reset to NULL. -/
def skip_cleared (jump_stack : JumpStack) : JumpStack :=
  if jump_stack.skip_pos = some jump_stack.pos then
    { jump_stack with skip_pos := none }
  else jump_stack

/-- tape_jump_if_not_zero: clears the skip marker when it equals the stack
top, pops (possibly failing with the nesting error), and when the current
cell is non-zero reports the popped bookmark as the position to seek to
(`fsetpos`); `none` means no rewind. -/
def tape_jump_if_not_zero (tape : Tape) (jump_stack : JumpStack) :
    ExecutionStatus × JumpStack × Option Nat :=
  let js1 := skip_cleared jump_stack
  match jump_stack_pop js1 with
  | (.STATUS_OK, js2, pos) =>
      if tape_cell tape ≠ 0 then (.STATUS_OK, js2, some pos)
      else (.STATUS_OK, js2, none)
  | (s, js2, _) => (s, js2, none)

/-- tape_print_debug_info: the snapshot printed by the debug command, as the
list of (cell index, printed value) pairs for the 2*DEBUG_NUM_CELLS+1 cells
around the pointer; indices at or past the size field print as zero. -/
def tape_print_debug_info (tape : Tape) : ExecutionStatus × List (Nat × Nat) :=
  let start :=
    if tape.pointer < DEBUG_NUM_CELLS then 0 else tape.pointer - DEBUG_NUM_CELLS
  (.STATUS_OK,
   (List.range (DEBUG_NUM_CELLS * 2 + 1)).map (fun i =>
     let cell_index := start + i
     (cell_index, if cell_index < tape.size then tape.data.getD cell_index 0 else 0)))

/-- The `interpreter_config` struct (only the field the engine consults). -/
structure InterpreterConfig where
  debug_enabled : Bool

/-- The interpreter loop's state: the two structures, the stream read
position (`readPos`, which also plays the role of the C variable `pos`:
at the top of each loop iteration that variable equals the stream position,
i.e. the index of the character about to be read), the remaining program
input, the program output written so far, and the debug snapshots printed
so far. -/
structure MState where
  tape : Tape
  jump_stack : JumpStack
  readPos : Nat
  input : List Nat
  output : List Nat
  dbg : List (List (Nat × Nat))
deriving DecidableEq, Repr

/-- Result of one iteration of the interpreter's while loop. -/
inductive StepRes where
  | running (st : MState)
  | done (status : ExecutionStatus) (st : MState)
deriving DecidableEq, Repr

/-- Shared tail of each dispatch arm: on STATUS_OK the loop continues and
`fgetpos` records `newPos`; on an error the loop exits via `goto error`
without updating the position variable. -/
def finishStep (s : ExecutionStatus) (st : MState) (newPos : Nat) : StepRes :=
  if s = .STATUS_OK then .running { st with readPos := newPos } else .done s st

/-- One iteration of the while loop in execute_brainfuck_from_stream: read
the character at `readPos` (EOF when past the end: report the nesting error
if the jump stack is non-empty, else STATUS_OK), dispatch on it, and either
continue with the updated read position or stop with the error status. -/
def step (config : InterpreterConfig) (allocOk : Bool) (prog : List Char)
    (st : MState) : StepRes :=
  match prog[st.readPos]? with
  | none =>
      if st.jump_stack.pos ≠ 0 then .done .STATUS_ERR_NESTING st
      else .done .STATUS_OK st
  | some ch =>
      if ch = '>' then
        let r := tape_move_right allocOk st.tape st.jump_stack
        finishStep r.1 { st with tape := r.2 } (st.readPos + 1)
      else if ch = '<' then
        let r := tape_move_left st.tape st.jump_stack
        finishStep r.1 { st with tape := r.2 } (st.readPos + 1)
      else if ch = '+' then
        let r := tape_increment st.tape st.jump_stack
        finishStep r.1 { st with tape := r.2 } (st.readPos + 1)
      else if ch = '-' then
        let r := tape_decrement st.tape st.jump_stack
        finishStep r.1 { st with tape := r.2 } (st.readPos + 1)
      else if ch = '.' then
        let r := tape_output st.tape st.jump_stack
        finishStep r.1 { st with output := st.output ++ r.2 } (st.readPos + 1)
      else if ch = ',' then
        let r := tape_input st.tape st.jump_stack st.input
        finishStep r.1 { st with tape := r.2.1, input := r.2.2 } (st.readPos + 1)
      else if ch = '[' then
        let r := tape_jump_if_zero allocOk st.tape st.jump_stack st.readPos
        finishStep r.1 { st with jump_stack := r.2 } (st.readPos + 1)
      else if ch = ']' then
        let r := tape_jump_if_not_zero st.tape st.jump_stack
        let st1 := { st with jump_stack := r.2.1 }
        match r.2.2 with
        | some b => finishStep r.1 st1 b
        | none => finishStep r.1 st1 (st.readPos + 1)
      else if ch = '#' then
        if config.debug_enabled then
          let r := tape_print_debug_info st.tape
          finishStep r.1 { st with dbg := st.dbg ++ [r.2] } (st.readPos + 1)
        else finishStep .STATUS_OK st (st.readPos + 1)
      else finishStep .STATUS_OK st (st.readPos + 1)

/-- Iterate the loop for at most `fuel` characters; `none` means the fuel ran
out before the run terminated. -/
def runFrom (config : InterpreterConfig) (allocOk : Bool) (prog : List Char) :
    Nat → MState → Option (ExecutionStatus × MState)
  | 0, _ => none
  | fuel + 1, st =>
      match step config allocOk prog st with
      | .done s st1 => some (s, st1)
      | .running st1 => runFrom config allocOk prog fuel st1

/-- The state the interpreter loop starts from: fresh tape and jump stack,
read position at the stream's starting offset, given program input, nothing
written yet. -/
def init_state (input : List Nat) : MState :=
  { tape := init_tape
    jump_stack := init_jump_stack
    readPos := 0
    input := input
    output := []
    dbg := [] }

/-- execute_brainfuck_from_stream, from a successfully initialized machine:
run the program characters against fresh structures with the given input. -/
def execute_brainfuck_from_stream (config : InterpreterConfig) (allocOk : Bool)
    (prog : List Char) (input : List Nat) (fuel : Nat) :
    Option (ExecutionStatus × MState) :=
  runFrom config allocOk prog fuel (init_state input)

/-- Iterate the loop for exactly `n` characters, stopping early only at
termination; used to speak about every state the run passes through. -/
def iter (config : InterpreterConfig) (allocOk : Bool) (prog : List Char) :
    Nat → MState → StepRes
  | 0, st => .running st
  | n + 1, st =>
      match step config allocOk prog st with
      | .running st1 => iter config allocOk prog n st1
      | d => d

/-- Apply a sequence of increment (true) and decrement (false) commands to the
tape through the corresponding maxbf.c operations. -/
def applyPM (jump_stack : JumpStack) : List Bool → Tape → Tape
  | [], tape => tape
  | cmd :: rest, tape =>
      applyPM jump_stack rest
        (if cmd then (tape_increment tape jump_stack).2
         else (tape_decrement tape jump_stack).2)

/-- Jump stack state with an active skip marker, used to exhibit the
skip-mode no-op behaviour of the tape operations. -/
def skipping_stack : JumpStack :=
  { init_jump_stack with pos := 1, skip_pos := some 1 }

/-- Repeated jump_stack_push of bookmark 0, recording the statuses in order
together with the final stack. -/
def pushNtimes (allocOk : Bool) : Nat → JumpStack → List ExecutionStatus × JumpStack
  | 0, jump_stack => ([], jump_stack)
  | n + 1, jump_stack =>
      let r := jump_stack_push allocOk jump_stack 0
      let rest := pushNtimes allocOk n r.2
      (r.1 :: rest.1, rest.2)

/-- The machine state carried by a step result. -/
def stateOf : StepRes → MState
  | .running st => st
  | .done _ st => st

/-- The bookmarks currently held on the jump stack, bottom to top: maxbf.c
keeps them in slots 1..pos (slot 0 is below the first entry). -/
def entries (jump_stack : JumpStack) : List Nat :=
  (List.range jump_stack.pos).map (fun i => jump_stack.data.getD (i + 1) 0)

/-- Well-formedness of the jump stack as maxbf.c maintains it: the size field
matches the allocation and the top index stays inside it. -/
def JumpStackWF (jump_stack : JumpStack) : Prop :=
  jump_stack.data.length = jump_stack.size ∧ jump_stack.pos < jump_stack.size

/-- Well-formedness of the tape as maxbf.c maintains it: the size field
matches the allocation and the cursor stays inside it. -/
def TapeWF (tape : Tape) : Prop :=
  tape.data.length = tape.size ∧ tape.pointer < tape.size

/-- The skip-mode invariant: whenever the skip marker is set, the current
cell is zero. -/
def SkipInv (st : MState) : Prop :=
  ∀ k, st.jump_stack.skip_pos = some k → tape_cell st.tape = 0

/-- Positions of the not-yet-matched opening-bracket commands among the first
p program characters, bottom-most first, as a purely static scan computes
them. -/
def open_brackets (prog : List Char) : Nat → List Nat
  | 0 => []
  | p + 1 =>
      let s := open_brackets prog p
      if prog.getD p ' ' = '[' then s ++ [p]
      else if prog.getD p ' ' = ']' then s.dropLast
      else s

/-- Every closing bracket in the program has a preceding unmatched opening
bracket. -/
def prefixBalanced (prog : List Char) : Prop :=
  ∀ p, p < prog.length → prog.getD p ' ' = ']' → open_brackets prog p ≠ []

/-- The loop invariant tying the dynamic jump stack to the static bracket
scan of the already-consumed prefix. -/
def StackInv (prog : List Char) (st : MState) : Prop :=
  entries st.jump_stack = open_brackets prog st.readPos ∧
  JumpStackWF st.jump_stack ∧
  st.readPos ≤ prog.length

/-- Replace the remaining program input of a state. -/
def setInput (st : MState) (input : List Nat) : MState :=
  { st with input := input }

/-- Map a function over the state carried by a step result. -/
def mapState (f : MState → MState) : StepRes → StepRes
  | .running st => .running (f st)
  | .done s st => .done s (f st)

/-- The machine state reached after executing the single opening bracket of
the one-character bracket program from the initial state: the bookmark 0 is
pushed and, the cell being zero, the skip marker is set to it. -/
def stC1 : MState :=
  { init_state [] with
    jump_stack :=
      { data := List.replicate 100 0, size := 100, pos := 1, skip_pos := some 1 },
    readPos := 1 }

/-- The spec's Scenario 1 program (its canonical smoke test). -/
def hwProg : List Char :=
  "++++++++[>++++[>++>+++>+++>+<<<<-]>+>+>->>+[<]<-]>>.>---.+++++++..+++.>>.<-.<.+++.------.--------.>>.+.".toList

/-! ## Theorems -/

/-! ## Small list helpers -/

/-- Reading back the slot just written by List.set. -/
theorem getD_set_self (l : List Nat) (n : Nat) (a : Nat) (h : n < l.length) :
    (l.set n a).getD n 0 = a := by
  rw [List.getD_eq_getElem _ _ (show n < (l.set n a).length by simpa using h)]
  simp

/-- List.set leaves every other slot alone, seen through getD. -/
theorem getD_set_ne (l : List Nat) (n m : Nat) (a : Nat) (h : m ≠ n) :
    (l.set m a).getD n 0 = l.getD n 0 := by
  by_cases hn : n < l.length
  · rw [List.getD_eq_getElem _ _ (show n < (l.set m a).length by simpa using hn),
        List.getD_eq_getElem _ _ hn]
    exact List.getElem_set_ne h _
  · rw [List.getD_eq_default _ _ (show (l.set m a).length ≤ n by
          simpa using Nat.le_of_not_lt hn),
        List.getD_eq_default _ _ (Nat.le_of_not_lt hn)]

/-- Absorbing an inner remainder into an outer one. -/
theorem emod_absorb (x y : Int) : (x % 256 + y) % 256 = (x + y) % 256 := by
  rw [Int.add_emod, Int.emod_emod_of_dvd x dvd_rfl, ← Int.add_emod]

/-! ## C6: net effect of increment and decrement sequences -/



theorem applyPM_tape_cell (jump_stack : JumpStack)
    (hskip : jump_stack.skip_pos = none) :
    ∀ (cmds : List Bool) (tape : Tape), tape.pointer < tape.data.length →
      tape_cell tape < 256 →
      (tape_cell (applyPM jump_stack cmds tape) : Int) =
        ((tape_cell tape : Int) + cmds.count true - cmds.count false) % 256 := by
  intro cmds
  induction cmds with
  | nil =>
      intro tape _ hv
      simp only [applyPM, List.count_nil]
      push_cast
      omega
  | cons cmd rest ih =>
      intro tape hp hv
      cases cmd with
      | true =>
          have hstep : (tape_increment tape jump_stack).2 =
              { tape with data := tape.data.set tape.pointer ((tape_cell tape + 1) % 256) } := by
            simp [tape_increment, hskip]
          have hcell : tape_cell (tape_increment tape jump_stack).2 =
              (tape_cell tape + 1) % 256 := by
            rw [hstep]
            exact getD_set_self _ _ _ hp
          have hlen : (tape_increment tape jump_stack).2.pointer <
              (tape_increment tape jump_stack).2.data.length := by
            rw [hstep]; simpa using hp
          simp only [applyPM, if_true]
          rw [ih _ hlen (by rw [hcell]; exact Nat.mod_lt _ (by norm_num)), hcell]
          simp [List.count_cons]
          rw [add_sub_assoc, emod_absorb, ← add_sub_assoc]
          omega
      | false =>
          have hstep : (tape_decrement tape jump_stack).2 =
              { tape with data := tape.data.set tape.pointer ((tape_cell tape + 255) % 256) } := by
            simp [tape_decrement, hskip]
          have hcell : tape_cell (tape_decrement tape jump_stack).2 =
              (tape_cell tape + 255) % 256 := by
            rw [hstep]
            exact getD_set_self _ _ _ hp
          have hlen : (tape_decrement tape jump_stack).2.pointer <
              (tape_decrement tape jump_stack).2.data.length := by
            rw [hstep]; simpa using hp
          simp only [applyPM, if_false, Bool.false_eq_true, ite_false]
          rw [ih _ hlen (by rw [hcell]; exact Nat.mod_lt _ (by norm_num)), hcell]
          simp [List.count_cons]
          rw [add_sub_assoc, emod_absorb, ← add_sub_assoc]
          omega

/-- C6: for every finite sequence of increment (true) and decrement (false)
commands applied through the maxbf.c cell operations to the initial cell,
which starts at 0, with skip-mode inactive, the final cell value is the net
count (increments minus decrements) modulo 256, wrapping in both
directions. -/
theorem C6_inc_dec_net_count (jump_stack : JumpStack) (cmds : List Bool)
    (hskip : jump_stack.skip_pos = none) :
    (tape_cell (applyPM jump_stack cmds init_tape) : Int) =
      ((cmds.count true : Int) - (cmds.count false : Int)) % 256 := by
  have h0 : tape_cell init_tape = 0 := by decide
  have := applyPM_tape_cell jump_stack hskip cmds init_tape
    (by simp [init_tape, INITIAL_TAPE_SIZE]) (by rw [h0]; norm_num)
  rw [this, h0]
  norm_num

/-- Witness for C6 at a concrete input: two decrements from zero wrap to
254. -/
theorem C6_witness :
    init_jump_stack.skip_pos = none ∧
    (tape_cell (applyPM init_jump_stack [false, false] init_tape) : Int) =
      (((List.count true [false, false] : Nat) : Int) -
        ((List.count false [false, false] : Nat) : Int)) % 256 :=
  ⟨rfl, C6_inc_dec_net_count init_jump_stack [false, false] rfl⟩

/-! ## C7: move_left at the leftmost cell -/



/-- C7 counterexample: with an active skip marker, tape_move_left at the
initial cursor position is a no-op returning STATUS_OK, not the
left-boundary error, so "always fails with the left-boundary error" is false
as stated. -/
theorem C7_counterexample :
    init_tape.pointer = 0 ∧
    tape_move_left init_tape skipping_stack = (.STATUS_OK, init_tape) ∧
    ExecutionStatus.STATUS_OK ≠ .STATUS_ERR_LBOUND :=
  ⟨rfl, rfl, by decide⟩

/-- C7 (amended): when skip-mode is inactive, tape_move_left with the cursor
at the initial (leftmost) position fails with the left-boundary error and
leaves the tape (cells, size and cursor) unchanged — under an active skip
marker it is instead a no-op returning STATUS_OK — and in particular the
one-character move-left program terminates with the left-boundary status and
produces no output. -/
theorem C7_move_left_left_boundary (tape : Tape) (jump_stack : JumpStack)
    (input : List Nat) (hskip : jump_stack.skip_pos = none)
    (hp : tape.pointer = 0) :
    tape_move_left tape jump_stack = (.STATUS_ERR_LBOUND, tape) ∧
    (execute_brainfuck_from_stream ⟨false⟩ true ['<'] input 10).map
      (fun r => (r.1, r.2.output)) = some (.STATUS_ERR_LBOUND, []) := by
  constructor
  · simp [tape_move_left, hskip, hp]
  · rfl

/-- Witness for C7's amended theorem at a concrete input. -/
theorem C7_witness :
    tape_move_left init_tape init_jump_stack = (.STATUS_ERR_LBOUND, init_tape) ∧
    (execute_brainfuck_from_stream ⟨false⟩ true ['<'] [7] 10).map
      (fun r => (r.1, r.2.output)) = some (.STATUS_ERR_LBOUND, []) :=
  C7_move_left_left_boundary init_tape init_jump_stack [7] rfl rfl

/-! ## C3: failed growth leaves a partially modified structure -/

/-- C3 counterexample: a failed growth during tape_move_right does not leave
the whole structure unchanged: the size field has already been doubled (from
1000 to 2000) when the allocation failure is reported. -/
theorem C3_counterexample :
    (tape_move_right false { init_tape with pointer := 999 } init_jump_stack).1 =
      .STATUS_ERR_ALLOC ∧
    (tape_move_right false { init_tape with pointer := 999 } init_jump_stack).2.size = 2000 ∧
    ({ init_tape with pointer := 999 } : Tape).size = 1000 ∧
    (2000 : Nat) ≠ 1000 :=
  ⟨rfl, rfl, rfl, by decide⟩

/-- C3 (amended): when a growth attempt during tape_move_right (skip-mode
inactive, cursor on the last allocated cell) or jump_stack_push (stack full)
cannot acquire memory, the operation returns STATUS_ERR_ALLOC and leaves the
data, the cursor / top-of-stack and the skip marker unchanged, but the size
field has already been doubled by the time of the failure, because the C
code executes `size *= 2` before calling realloc. -/
theorem C3_growth_failure_partial_state (tape : Tape) (jump_stack : JumpStack)
    (bookmark : Nat) (hskip : jump_stack.skip_pos = none)
    (htfull : tape.pointer = tape.size - 1)
    (hjfull : jump_stack.pos = jump_stack.size - 1) :
    tape_move_right false tape jump_stack =
      (.STATUS_ERR_ALLOC, { tape with size := tape.size * 2 }) ∧
    jump_stack_push false jump_stack bookmark =
      (.STATUS_ERR_ALLOC, { jump_stack with size := jump_stack.size * 2 }) := by
  constructor
  · simp [tape_move_right, hskip, htfull]
  · simp [jump_stack_push, hjfull]

/-- Witness for C3's amended theorem at a concrete input. -/
theorem C3_witness :
    tape_move_right false { init_tape with pointer := 999 }
        { init_jump_stack with pos := 99 } =
      (.STATUS_ERR_ALLOC, { { init_tape with pointer := 999 } with size := 1000 * 2 }) ∧
    jump_stack_push false { init_jump_stack with pos := 99 } 7 =
      (.STATUS_ERR_ALLOC, { { init_jump_stack with pos := 99 } with size := 100 * 2 }) :=
  C3_growth_failure_partial_state { init_tape with pointer := 999 }
    { init_jump_stack with pos := 99 } 7 rfl (by decide) (by decide)

/-! ## C8: jump stack capacity and growth point -/



/-- C8 counterexample: 100 consecutive pushes onto a fresh jump stack do
grow the storage: the size field after 100 pushes is already 200, refuting
both "100 consecutive pushes succeed with no storage growth" and "growth
first occurs on the 101st push". -/
theorem C8_counterexample :
    (pushNtimes true 100 init_jump_stack).2.size = 200 ∧ (200 : Nat) ≠ 100 :=
  ⟨by decide, by decide⟩

/-- C8 (amended): the jump stack's initial capacity is 100 entries, but the
slot at index 0 is never used for an entry (push pre-increments), so only 99
pushes fit without growth: starting from an empty stack, 99 consecutive
pushes succeed with no storage growth, and growth by doubling (to 200
entries) first occurs on the 100th push, which also succeeds. -/
theorem C8_capacity_and_growth :
    init_jump_stack.size = 100 ∧
    (pushNtimes true 99 init_jump_stack).1 = List.replicate 99 .STATUS_OK ∧
    (pushNtimes true 99 init_jump_stack).2.size = 100 ∧
    (pushNtimes true 100 init_jump_stack).1 = List.replicate 100 .STATUS_OK ∧
    (pushNtimes true 100 init_jump_stack).2.size = 200 :=
  ⟨rfl, by decide, by decide, by decide, by decide⟩

/-! ## C2: the debug command -/



/-- C2 counterexample: running the bracketed-debug program with the debug
feature enabled, the first step activates skip-mode (cell 0 at the opening
bracket), and the second step — the debug command executed while skip-mode is
active — still emits a debug snapshot, so the debug command is not
suppressed while skipping. -/
theorem C2_counterexample :
    (stateOf (iter ⟨true⟩ true "[#]".toList 1 (init_state []))).jump_stack.skip_pos = some 1 ∧
    (stateOf (iter ⟨true⟩ true "[#]".toList 1 (init_state []))).readPos = 1 ∧
    "[#]".toList.getD 1 ' ' = '#' ∧
    (stateOf (iter ⟨true⟩ true "[#]".toList 1 (init_state []))).dbg = [] ∧
    (stateOf (iter ⟨true⟩ true "[#]".toList 2 (init_state []))).dbg.length = 1 :=
  ⟨by decide, by decide, by decide, by decide, by decide⟩

/-- C2 (amended): when the debug command is enabled and executed, it alters
neither the Tape nor the Jump Stack (skip marker included) and only appends
one snapshot to the debug output and advances the read position — but it is
not suppressed while skip-mode is active: the snapshot is emitted
unconditionally, because tape_print_debug_info is dispatched without
consulting the skip marker. -/
theorem C2_debug_read_only (config : InterpreterConfig) (allocOk : Bool)
    (prog : List Char) (st : MState) (hdbg : config.debug_enabled = true)
    (hch : prog[st.readPos]? = some '#') :
    step config allocOk prog st =
      .running { st with
                 dbg := st.dbg ++ [(tape_print_debug_info st.tape).2],
                 readPos := st.readPos + 1 } := by
  cases config
  simp only at hdbg
  subst hdbg
  simp [step, hch, finishStep, tape_print_debug_info]

/-- Witness for C2's amended theorem at a concrete input. -/
theorem C2_witness :
    step ⟨true⟩ true ['#'] (init_state []) =
      .running { init_state [] with
                 dbg := (init_state []).dbg ++ [(tape_print_debug_info (init_state []).tape).2],
                 readPos := (init_state []).readPos + 1 } :=
  C2_debug_read_only ⟨true⟩ true ['#'] (init_state []) rfl rfl

/-! ## Dispatch and data-structure helper lemmas -/

theorem finishStep_running_iff (s : ExecutionStatus) (st : MState) (newPos : Nat)
    (st1 : MState) :
    finishStep s st newPos = .running st1 ↔
      s = .STATUS_OK ∧ st1 = { st with readPos := newPos } := by
  unfold finishStep
  by_cases h : s = .STATUS_OK <;> simp [h, eq_comm]

theorem finishStep_done_iff (s : ExecutionStatus) (st : MState) (newPos : Nat)
    (s1 : ExecutionStatus) (st1 : MState) :
    finishStep s st newPos = .done s1 st1 ↔
      s ≠ .STATUS_OK ∧ s1 = s ∧ st1 = st := by
  unfold finishStep
  by_cases h : s = .STATUS_OK <;> simp [h, eq_comm]

theorem getD_of_getElem? (prog : List Char) (p : Nat) (ch : Char)
    (h : prog[p]? = some ch) : p < prog.length ∧ prog.getD p ' ' = ch := by
  have hlt : p < prog.length := by
    by_contra hge
    rw [List.getElem?_eq_none (by omega)] at h
    cases h
  refine ⟨hlt, ?_⟩
  rw [List.getD_eq_getElem _ _ hlt]
  rw [List.getElem?_eq_getElem hlt] at h
  exact Option.some.inj h

theorem tape_move_right_status (tape : Tape) (jump_stack : JumpStack) :
    (tape_move_right true tape jump_stack).1 = .STATUS_OK := by
  unfold tape_move_right
  split
  · rfl
  · split <;> simp

theorem tape_move_left_status (tape : Tape) (jump_stack : JumpStack) :
    (tape_move_left tape jump_stack).1 = .STATUS_OK ∨
      (tape_move_left tape jump_stack).1 = .STATUS_ERR_LBOUND := by
  unfold tape_move_left
  split
  · exact Or.inl rfl
  · split
    · exact Or.inr rfl
    · exact Or.inl rfl

theorem tape_increment_status (tape : Tape) (jump_stack : JumpStack) :
    (tape_increment tape jump_stack).1 = .STATUS_OK := by
  unfold tape_increment
  split <;> rfl

theorem tape_decrement_status (tape : Tape) (jump_stack : JumpStack) :
    (tape_decrement tape jump_stack).1 = .STATUS_OK := by
  unfold tape_decrement
  split <;> rfl

theorem tape_output_status (tape : Tape) (jump_stack : JumpStack) :
    (tape_output tape jump_stack).1 = .STATUS_OK := by
  unfold tape_output
  split <;> rfl

theorem tape_input_status (tape : Tape) (jump_stack : JumpStack) (input : List Nat) :
    (tape_input tape jump_stack input).1 = .STATUS_OK := by
  unfold tape_input
  split
  · rfl
  · split <;> rfl

theorem tape_print_debug_info_status (tape : Tape) :
    (tape_print_debug_info tape).1 = .STATUS_OK := rfl

theorem jump_stack_push_status (jump_stack : JumpStack) (b : Nat) :
    (jump_stack_push true jump_stack b).1 = .STATUS_OK := by
  unfold jump_stack_push
  split <;> simp

theorem tape_jump_if_zero_status (tape : Tape) (jump_stack : JumpStack) (b : Nat) :
    (tape_jump_if_zero true tape jump_stack b).1 = .STATUS_OK := by
  unfold tape_jump_if_zero
  simp only [jump_stack_push_status, ne_eq, not_true_eq_false, if_false, ite_false]
  split
  · rfl
  · split <;> rfl

theorem skip_cleared_pos (jump_stack : JumpStack) :
    (skip_cleared jump_stack).pos = jump_stack.pos := by
  unfold skip_cleared
  split <;> rfl

theorem skip_cleared_data (jump_stack : JumpStack) :
    (skip_cleared jump_stack).data = jump_stack.data := by
  unfold skip_cleared
  split <;> rfl

theorem entries_length (jump_stack : JumpStack) :
    (entries jump_stack).length = jump_stack.pos := by
  simp [entries]

theorem entries_eq_nil_iff (jump_stack : JumpStack) :
    entries jump_stack = [] ↔ jump_stack.pos = 0 := by
  simp [entries, List.range_eq_nil]

theorem entries_eq_of (a b : JumpStack) (h1 : a.data = b.data) (h2 : a.pos = b.pos) :
    entries a = entries b := by
  unfold entries
  rw [h1, h2]

theorem entries_concat (jump_stack : JumpStack) (hne : jump_stack.pos ≠ 0) :
    entries jump_stack =
      entries { jump_stack with pos := jump_stack.pos - 1 } ++
        [jump_stack.data.getD jump_stack.pos 0] := by
  unfold entries
  obtain ⟨q, hq⟩ : ∃ q, jump_stack.pos = q + 1 := ⟨jump_stack.pos - 1, by omega⟩
  rw [hq]
  simp [List.range_succ]

theorem jump_stack_push_spec (jump_stack : JumpStack) (b : Nat)
    (hWF : JumpStackWF jump_stack) :
    entries (jump_stack_push true jump_stack b).2 = entries jump_stack ++ [b] ∧
    JumpStackWF (jump_stack_push true jump_stack b).2 ∧
    (jump_stack_push true jump_stack b).2.pos = jump_stack.pos + 1 ∧
    (jump_stack_push true jump_stack b).2.skip_pos = jump_stack.skip_pos := by
  obtain ⟨hlen, hpos⟩ := hWF
  unfold jump_stack_push
  by_cases hfull : jump_stack.pos = jump_stack.size - 1
  · rw [if_pos hfull, if_pos rfl]
    refine ⟨?_, ⟨?_, ?_⟩, rfl, rfl⟩
    · unfold entries
      dsimp only
      simp only [List.range_succ, List.map_append, List.map_cons, List.map_nil]
      have h1 : List.map
          (fun i => ((jump_stack.data ++
              List.replicate (jump_stack.size * 2 - jump_stack.size) 0).set
              (jump_stack.pos + 1) b).getD (i + 1) 0)
          (List.range jump_stack.pos) =
          List.map (fun i => jump_stack.data.getD (i + 1) 0)
            (List.range jump_stack.pos) := by
        apply List.map_congr_left
        intro i hi
        have hi2 : i < jump_stack.pos := List.mem_range.mp hi
        rw [getD_set_ne _ _ _ _ (by omega), List.getD_append _ _ _ _ (by omega)]
      have h2 : ((jump_stack.data ++
          List.replicate (jump_stack.size * 2 - jump_stack.size) 0).set
          (jump_stack.pos + 1) b).getD (jump_stack.pos + 1) 0 = b := by
        apply getD_set_self
        simp only [List.length_append, List.length_replicate]
        omega
      rw [h1, h2]
    · dsimp only
      simp only [List.length_set, List.length_append, List.length_replicate]
      omega
    · dsimp only
      omega
  · rw [if_neg hfull]
    refine ⟨?_, ⟨?_, ?_⟩, rfl, rfl⟩
    · unfold entries
      dsimp only
      simp only [List.range_succ, List.map_append, List.map_cons, List.map_nil]
      have h1 : List.map
          (fun i => (jump_stack.data.set (jump_stack.pos + 1) b).getD (i + 1) 0)
          (List.range jump_stack.pos) =
          List.map (fun i => jump_stack.data.getD (i + 1) 0)
            (List.range jump_stack.pos) := by
        apply List.map_congr_left
        intro i hi
        have hi2 : i < jump_stack.pos := List.mem_range.mp hi
        rw [getD_set_ne _ _ _ _ (by omega)]
      have h2 : (jump_stack.data.set (jump_stack.pos + 1) b).getD
          (jump_stack.pos + 1) 0 = b := by
        apply getD_set_self
        omega
      rw [h1, h2]
    · dsimp only
      simp only [List.length_set]
      omega
    · dsimp only
      omega

theorem tape_jump_if_not_zero_eq (tape : Tape) (jump_stack : JumpStack)
    (hne : jump_stack.pos ≠ 0) :
    tape_jump_if_not_zero tape jump_stack =
      (.STATUS_OK, { skip_cleared jump_stack with pos := jump_stack.pos - 1 },
       if tape_cell tape ≠ 0 then some (jump_stack.data.getD jump_stack.pos 0)
       else none) := by
  simp only [tape_jump_if_not_zero, jump_stack_pop, skip_cleared_pos,
    skip_cleared_data, if_neg hne]
  by_cases hcell : tape_cell tape ≠ 0 <;> simp [hcell]

theorem tape_jump_if_not_zero_empty (tape : Tape) (jump_stack : JumpStack)
    (h0 : jump_stack.pos = 0) :
    tape_jump_if_not_zero tape jump_stack =
      (.STATUS_ERR_NESTING, skip_cleared jump_stack, none) := by
  simp only [tape_jump_if_not_zero, jump_stack_pop, skip_cleared_pos, if_pos h0]

/-! ## One-step dispatch equations -/

theorem step_eq_eof (config : InterpreterConfig) (allocOk : Bool)
    (prog : List Char) (st : MState) (hch : prog[st.readPos]? = none) :
    step config allocOk prog st =
      if st.jump_stack.pos ≠ 0 then .done .STATUS_ERR_NESTING st
      else .done .STATUS_OK st := by
  simp only [step, hch]

theorem step_eq_right (config : InterpreterConfig) (allocOk : Bool)
    (prog : List Char) (st : MState) (hch : prog[st.readPos]? = some '>') :
    step config allocOk prog st =
      finishStep (tape_move_right allocOk st.tape st.jump_stack).1
        { st with tape := (tape_move_right allocOk st.tape st.jump_stack).2 }
        (st.readPos + 1) := by
  simp [step, hch]

theorem step_eq_left (config : InterpreterConfig) (allocOk : Bool)
    (prog : List Char) (st : MState) (hch : prog[st.readPos]? = some '<') :
    step config allocOk prog st =
      finishStep (tape_move_left st.tape st.jump_stack).1
        { st with tape := (tape_move_left st.tape st.jump_stack).2 }
        (st.readPos + 1) := by
  simp [step, hch]

theorem step_eq_plus (config : InterpreterConfig) (allocOk : Bool)
    (prog : List Char) (st : MState) (hch : prog[st.readPos]? = some '+') :
    step config allocOk prog st =
      finishStep (tape_increment st.tape st.jump_stack).1
        { st with tape := (tape_increment st.tape st.jump_stack).2 }
        (st.readPos + 1) := by
  simp [step, hch]

theorem step_eq_minus (config : InterpreterConfig) (allocOk : Bool)
    (prog : List Char) (st : MState) (hch : prog[st.readPos]? = some '-') :
    step config allocOk prog st =
      finishStep (tape_decrement st.tape st.jump_stack).1
        { st with tape := (tape_decrement st.tape st.jump_stack).2 }
        (st.readPos + 1) := by
  simp [step, hch]

theorem step_eq_dot (config : InterpreterConfig) (allocOk : Bool)
    (prog : List Char) (st : MState) (hch : prog[st.readPos]? = some '.') :
    step config allocOk prog st =
      finishStep (tape_output st.tape st.jump_stack).1
        { st with output := st.output ++ (tape_output st.tape st.jump_stack).2 }
        (st.readPos + 1) := by
  simp [step, hch]

theorem step_eq_comma (config : InterpreterConfig) (allocOk : Bool)
    (prog : List Char) (st : MState) (hch : prog[st.readPos]? = some ',') :
    step config allocOk prog st =
      finishStep (tape_input st.tape st.jump_stack st.input).1
        { st with
          tape := (tape_input st.tape st.jump_stack st.input).2.1,
          input := (tape_input st.tape st.jump_stack st.input).2.2 }
        (st.readPos + 1) := by
  simp [step, hch]

theorem step_eq_lbracket (config : InterpreterConfig) (allocOk : Bool)
    (prog : List Char) (st : MState) (hch : prog[st.readPos]? = some '[') :
    step config allocOk prog st =
      finishStep (tape_jump_if_zero allocOk st.tape st.jump_stack st.readPos).1
        { st with jump_stack := (tape_jump_if_zero allocOk st.tape st.jump_stack st.readPos).2 }
        (st.readPos + 1) := by
  simp [step, hch]

theorem step_eq_rbracket (config : InterpreterConfig) (allocOk : Bool)
    (prog : List Char) (st : MState) (hch : prog[st.readPos]? = some ']') :
    step config allocOk prog st =
      (match (tape_jump_if_not_zero st.tape st.jump_stack).2.2 with
       | some b =>
           finishStep (tape_jump_if_not_zero st.tape st.jump_stack).1
             { st with jump_stack := (tape_jump_if_not_zero st.tape st.jump_stack).2.1 } b
       | none =>
           finishStep (tape_jump_if_not_zero st.tape st.jump_stack).1
             { st with jump_stack := (tape_jump_if_not_zero st.tape st.jump_stack).2.1 }
             (st.readPos + 1)) := by
  simp [step, hch]

theorem step_eq_hash (config : InterpreterConfig) (allocOk : Bool)
    (prog : List Char) (st : MState) (hch : prog[st.readPos]? = some '#') :
    step config allocOk prog st =
      if config.debug_enabled then
        .running { st with
                   dbg := st.dbg ++ [(tape_print_debug_info st.tape).2],
                   readPos := st.readPos + 1 }
      else .running { st with readPos := st.readPos + 1 } := by
  by_cases hdbg : config.debug_enabled <;>
    simp [step, hch, hdbg, finishStep, tape_print_debug_info_status]

theorem step_eq_other (config : InterpreterConfig) (allocOk : Bool)
    (prog : List Char) (st : MState) (ch : Char)
    (hch : prog[st.readPos]? = some ch)
    (h1 : ch ≠ '>') (h2 : ch ≠ '<') (h3 : ch ≠ '+') (h4 : ch ≠ '-')
    (h5 : ch ≠ '.') (h6 : ch ≠ ',') (h7 : ch ≠ '[') (h8 : ch ≠ ']')
    (h9 : ch ≠ '#') :
    step config allocOk prog st = .running { st with readPos := st.readPos + 1 } := by
  simp [step, hch, h1, h2, h3, h4, h5, h6, h7, h8, h9, finishStep]

/-! ## Static bracket scan lemmas -/

theorem open_brackets_lt (prog : List Char) :
    ∀ p, ∀ x ∈ open_brackets prog p, x < p := by
  intro p
  induction p with
  | zero => simp [open_brackets]
  | succ p ih =>
      intro x hx
      simp only [open_brackets] at hx
      by_cases h1 : prog.getD p ' ' = '['
      · rw [if_pos h1] at hx
        rcases List.mem_append.mp hx with hx1 | hx1
        · exact Nat.lt_succ_of_lt (ih x hx1)
        · simp at hx1
          omega
      · rw [if_neg h1] at hx
        by_cases h2 : prog.getD p ' ' = ']'
        · rw [if_pos h2] at hx
          exact Nat.lt_succ_of_lt (ih x (List.dropLast_subset _ hx))
        · rw [if_neg h2] at hx
          exact Nat.lt_succ_of_lt (ih x hx)

theorem open_brackets_last (prog : List Char) :
    ∀ p l b, open_brackets prog p = l ++ [b] →
      prog.getD b ' ' = '[' ∧ open_brackets prog b = l := by
  intro p
  induction p using Nat.strong_induction_on with
  | _ p ih =>
      cases p with
      | zero =>
          intro l b h
          simp [open_brackets] at h
      | succ p =>
          intro l b h
          simp only [open_brackets] at h
          by_cases h1 : prog.getD p ' ' = '['
          · rw [if_pos h1] at h
            obtain ⟨hl, hb⟩ := List.append_inj' h rfl
            obtain rfl : b = p := by simpa using hb.symm
            exact ⟨h1, hl⟩
          · rw [if_neg h1] at h
            by_cases h2 : prog.getD p ' ' = ']'
            · rw [if_pos h2] at h
              have hne : open_brackets prog p ≠ [] := by
                intro h0
                rw [h0] at h
                simp at h
              have hdecomp : open_brackets prog p =
                  (l ++ [b]) ++ [(open_brackets prog p).getLast hne] := by
                conv_lhs => rw [← List.dropLast_append_getLast hne]
                rw [h]
              have hc := ih p (Nat.lt_succ_self p) (l ++ [b])
                ((open_brackets prog p).getLast hne) hdecomp
              have hclt : (open_brackets prog p).getLast hne < p :=
                open_brackets_lt prog p _ (List.getLast_mem hne)
              exact ih _ (by omega) l b hc.2
            · rw [if_neg h2] at h
              exact ih p (Nat.lt_succ_self p) l b h

theorem skip_cleared_size (jump_stack : JumpStack) :
    (skip_cleared jump_stack).size = jump_stack.size := by
  unfold skip_cleared
  split <;> rfl

theorem tape_jump_if_zero_spec (tape : Tape) (jump_stack : JumpStack) (b : Nat)
    (hWF : JumpStackWF jump_stack) :
    entries (tape_jump_if_zero true tape jump_stack b).2 = entries jump_stack ++ [b] ∧
    JumpStackWF (tape_jump_if_zero true tape jump_stack b).2 := by
  obtain ⟨hent, hwf, hp, hs⟩ := jump_stack_push_spec jump_stack b hWF
  unfold tape_jump_if_zero
  simp only [jump_stack_push_status, ne_eq, not_true_eq_false, if_false, ite_false]
  split
  · exact ⟨hent, hwf⟩
  · split
    · constructor
      · rw [← hent]
        exact entries_eq_of _ _ rfl rfl
      · exact hwf
    · exact ⟨hent, hwf⟩

/-- Commands that leave the jump stack untouched and move one character
forward preserve the stack invariant. -/
theorem StackInv_forward (prog : List Char) (st st1 : MState)
    (hent : entries st.jump_stack = open_brackets prog st.readPos)
    (hWF : JumpStackWF st.jump_stack)
    (hjs : st1.jump_stack = st.jump_stack)
    (hrp : st1.readPos = st.readPos + 1)
    (hlt : st.readPos < prog.length)
    (hb1 : prog.getD st.readPos ' ' ≠ '[')
    (hb2 : prog.getD st.readPos ' ' ≠ ']') :
    StackInv prog st1 := by
  refine ⟨?_, by rw [hjs]; exact hWF, by omega⟩
  rw [hjs, hrp, hent]
  simp only [open_brackets]
  rw [if_neg hb1, if_neg hb2]

/-- One interpreter step preserves the stack invariant while running, and
can only stop, other than through the left-boundary error, at the end of the
stream with the nesting error and a non-empty stack (assuming every closing
bracket is statically matched and some opening bracket is not). -/
theorem step_preserves_StackInv (config : InterpreterConfig) (prog : List Char)
    (st : MState) (hbal : prefixBalanced prog) (hinv : StackInv prog st) :
    (∀ st1, step config true prog st = .running st1 → StackInv prog st1) ∧
    (∀ s st1, step config true prog st = .done s st1 →
       s ≠ .STATUS_ERR_LBOUND → open_brackets prog prog.length ≠ [] →
       s = .STATUS_ERR_NESTING ∧ st1.readPos = prog.length ∧
         entries st1.jump_stack ≠ []) := by
  obtain ⟨hent, hWF, hle⟩ := hinv
  cases hch : prog[st.readPos]? with
  | none =>
      have hlen : prog.length ≤ st.readPos := by
        simpa using List.getElem?_eq_none_iff.mp hch
      have hrp : st.readPos = prog.length := by omega
      have heq := step_eq_eof config true prog st hch
      constructor
      · intro st1 hrun
        rw [heq] at hrun
        split at hrun <;> cases hrun
      · intro s st1 hdone hs hopen
        rw [heq] at hdone
        by_cases hp0 : st.jump_stack.pos ≠ 0
        · rw [if_pos hp0] at hdone
          cases hdone
          refine ⟨rfl, hrp, fun h => hp0 ((entries_eq_nil_iff _).mp h)⟩
        · rw [if_neg hp0] at hdone
          cases hdone
          exfalso
          apply hopen
          rw [← hrp, ← hent]
          exact (entries_eq_nil_iff _).mpr (by omega)
  | some ch =>
      obtain ⟨hlt, hgd⟩ := getD_of_getElem? prog st.readPos ch hch
      by_cases h1 : ch = '>'
      · subst h1
        have heq := step_eq_right config true prog st hch
        constructor
        · intro st1 hrun
          rw [heq, finishStep_running_iff] at hrun
          obtain ⟨-, rfl⟩ := hrun
          exact StackInv_forward prog st _ hent hWF rfl rfl hlt
            (by rw [hgd]; decide) (by rw [hgd]; decide)
        · intro s st1 hdone hs hopen
          rw [heq, finishStep_done_iff] at hdone
          exact absurd (tape_move_right_status st.tape st.jump_stack) hdone.1
      · by_cases h2 : ch = '<'
        · subst h2
          have heq := step_eq_left config true prog st hch
          constructor
          · intro st1 hrun
            rw [heq, finishStep_running_iff] at hrun
            obtain ⟨-, rfl⟩ := hrun
            exact StackInv_forward prog st _ hent hWF rfl rfl hlt
              (by rw [hgd]; decide) (by rw [hgd]; decide)
          · intro s st1 hdone hs hopen
            rw [heq, finishStep_done_iff] at hdone
            obtain ⟨hne, rfl, rfl⟩ := hdone
            rcases tape_move_left_status st.tape st.jump_stack with h | h
            · exact absurd h hne
            · exact absurd h hs
        · by_cases h3 : ch = '+'
          · subst h3
            have heq := step_eq_plus config true prog st hch
            constructor
            · intro st1 hrun
              rw [heq, finishStep_running_iff] at hrun
              obtain ⟨-, rfl⟩ := hrun
              exact StackInv_forward prog st _ hent hWF rfl rfl hlt
                (by rw [hgd]; decide) (by rw [hgd]; decide)
            · intro s st1 hdone hs hopen
              rw [heq, finishStep_done_iff] at hdone
              exact absurd (tape_increment_status st.tape st.jump_stack) hdone.1
          · by_cases h4 : ch = '-'
            · subst h4
              have heq := step_eq_minus config true prog st hch
              constructor
              · intro st1 hrun
                rw [heq, finishStep_running_iff] at hrun
                obtain ⟨-, rfl⟩ := hrun
                exact StackInv_forward prog st _ hent hWF rfl rfl hlt
                  (by rw [hgd]; decide) (by rw [hgd]; decide)
              · intro s st1 hdone hs hopen
                rw [heq, finishStep_done_iff] at hdone
                exact absurd (tape_decrement_status st.tape st.jump_stack) hdone.1
            · by_cases h5 : ch = '.'
              · subst h5
                have heq := step_eq_dot config true prog st hch
                constructor
                · intro st1 hrun
                  rw [heq, finishStep_running_iff] at hrun
                  obtain ⟨-, rfl⟩ := hrun
                  exact StackInv_forward prog st _ hent hWF rfl rfl hlt
                    (by rw [hgd]; decide) (by rw [hgd]; decide)
                · intro s st1 hdone hs hopen
                  rw [heq, finishStep_done_iff] at hdone
                  exact absurd (tape_output_status st.tape st.jump_stack) hdone.1
              · by_cases h6 : ch = ','
                · subst h6
                  have heq := step_eq_comma config true prog st hch
                  constructor
                  · intro st1 hrun
                    rw [heq, finishStep_running_iff] at hrun
                    obtain ⟨-, rfl⟩ := hrun
                    exact StackInv_forward prog st _ hent hWF rfl rfl hlt
                      (by rw [hgd]; decide) (by rw [hgd]; decide)
                  · intro s st1 hdone hs hopen
                    rw [heq, finishStep_done_iff] at hdone
                    exact absurd (tape_input_status st.tape st.jump_stack st.input) hdone.1
                · by_cases h7 : ch = '['
                  · subst h7
                    have heq := step_eq_lbracket config true prog st hch
                    obtain ⟨hent2, hwf2⟩ :=
                      tape_jump_if_zero_spec st.tape st.jump_stack st.readPos hWF
                    constructor
                    · intro st1 hrun
                      rw [heq, finishStep_running_iff] at hrun
                      obtain ⟨-, rfl⟩ := hrun
                      refine ⟨?_, hwf2, by dsimp only; omega⟩
                      dsimp only
                      rw [hent2, hent]
                      simp only [open_brackets]
                      rw [if_pos hgd]
                    · intro s st1 hdone hs hopen
                      rw [heq, finishStep_done_iff] at hdone
                      exact absurd
                        (tape_jump_if_zero_status st.tape st.jump_stack st.readPos) hdone.1
                  · by_cases h8 : ch = ']'
                    · subst h8
                      have hopenp : open_brackets prog st.readPos ≠ [] := hbal _ hlt hgd
                      have hposne : st.jump_stack.pos ≠ 0 := fun h0 =>
                        hopenp (by rw [← hent]; exact (entries_eq_nil_iff _).mpr h0)
                      have heq2 := tape_jump_if_not_zero_eq st.tape st.jump_stack hposne
                      have heq := step_eq_rbracket config true prog st hch
                      rw [heq2] at heq
                      have hdecomp : open_brackets prog st.readPos =
                          entries { st.jump_stack with pos := st.jump_stack.pos - 1 } ++
                            [st.jump_stack.data.getD st.jump_stack.pos 0] := by
                        rw [← hent]
                        exact entries_concat st.jump_stack hposne
                      obtain ⟨hbmark, hob⟩ := open_brackets_last prog st.readPos _ _ hdecomp
                      have hblt : st.jump_stack.data.getD st.jump_stack.pos 0 < st.readPos := by
                        apply open_brackets_lt prog st.readPos
                        rw [hdecomp]
                        exact List.mem_append.mpr (Or.inr (by simp))
                      have hentJ2 : entries { skip_cleared st.jump_stack with
                            pos := st.jump_stack.pos - 1 } =
                          entries { st.jump_stack with pos := st.jump_stack.pos - 1 } :=
                        entries_eq_of _ _ (by rw [skip_cleared_data]) rfl
                      have hwfJ2 : JumpStackWF { skip_cleared st.jump_stack with
                            pos := st.jump_stack.pos - 1 } := by
                        refine ⟨?_, ?_⟩
                        · show (skip_cleared st.jump_stack).data.length =
                            (skip_cleared st.jump_stack).size
                          rw [skip_cleared_data, skip_cleared_size]
                          exact hWF.1
                        · show st.jump_stack.pos - 1 < (skip_cleared st.jump_stack).size
                          rw [skip_cleared_size]
                          have := hWF.2
                          omega
                      by_cases hcell : tape_cell st.tape ≠ 0
                      · rw [if_pos hcell] at heq
                        dsimp only at heq
                        constructor
                        · intro st1 hrun
                          rw [heq] at hrun
                          rw [finishStep_running_iff] at hrun
                          obtain ⟨-, rfl⟩ := hrun
                          refine ⟨?_, hwfJ2, by dsimp only; omega⟩
                          dsimp only
                          rw [hentJ2, hob]
                        · intro s st1 hdone hs hopen
                          rw [heq, finishStep_done_iff] at hdone
                          exact absurd rfl hdone.1
                      · rw [if_neg hcell] at heq
                        dsimp only at heq
                        constructor
                        · intro st1 hrun
                          rw [heq] at hrun
                          rw [finishStep_running_iff] at hrun
                          obtain ⟨-, rfl⟩ := hrun
                          refine ⟨?_, hwfJ2, by dsimp only; omega⟩
                          dsimp only
                          rw [hentJ2]
                          have hstep1 : open_brackets prog (st.readPos + 1) =
                              (open_brackets prog st.readPos).dropLast := by
                            simp only [open_brackets]
                            rw [if_neg (by rw [hgd]; decide), if_pos hgd]
                          rw [hstep1, hdecomp, List.dropLast_concat]
                        · intro s st1 hdone hs hopen
                          rw [heq, finishStep_done_iff] at hdone
                          exact absurd rfl hdone.1
                    · by_cases h9 : ch = '#'
                      · subst h9
                        have heq := step_eq_hash config true prog st hch
                        by_cases hdbg : config.debug_enabled = true
                        · rw [if_pos hdbg] at heq
                          constructor
                          · intro st1 hrun
                            rw [heq] at hrun
                            cases hrun
                            exact StackInv_forward prog st _ hent hWF rfl rfl hlt
                              (by rw [hgd]; decide) (by rw [hgd]; decide)
                          · intro s st1 hdone hs hopen
                            rw [heq] at hdone
                            cases hdone
                        · rw [if_neg hdbg] at heq
                          constructor
                          · intro st1 hrun
                            rw [heq] at hrun
                            cases hrun
                            exact StackInv_forward prog st _ hent hWF rfl rfl hlt
                              (by rw [hgd]; decide) (by rw [hgd]; decide)
                          · intro s st1 hdone hs hopen
                            rw [heq] at hdone
                            cases hdone
                      · have heq := step_eq_other config true prog st ch hch
                          h1 h2 h3 h4 h5 h6 h7 h8 h9
                        constructor
                        · intro st1 hrun
                          rw [heq] at hrun
                          cases hrun
                          exact StackInv_forward prog st _ hent hWF rfl rfl hlt
                            (by rw [hgd]; exact h7) (by rw [hgd]; exact h8)
                        · intro s st1 hdone hs hopen
                          rw [heq] at hdone
                          cases hdone

theorem runFrom_nesting (config : InterpreterConfig) (prog : List Char)
    (hbal : prefixBalanced prog)
    (hopen : open_brackets prog prog.length ≠ []) :
    ∀ fuel st, StackInv prog st →
      ∀ s st1, runFrom config true prog fuel st = some (s, st1) →
        s ≠ .STATUS_ERR_LBOUND →
        s = .STATUS_ERR_NESTING ∧ st1.readPos = prog.length ∧
          entries st1.jump_stack ≠ [] := by
  intro fuel
  induction fuel with
  | zero =>
      intro st _ s st1 h
      simp [runFrom] at h
  | succ n ih =>
      intro st hinv s st1 hrun hs
      simp only [runFrom] at hrun
      cases hstep : step config true prog st with
      | done s2 st2 =>
          rw [hstep] at hrun
          simp only [Option.some.injEq, Prod.mk.injEq] at hrun
          obtain ⟨rfl, rfl⟩ := hrun
          exact (step_preserves_StackInv config prog st hbal hinv).2 _ _ hstep hs hopen
      | running st2 =>
          rw [hstep] at hrun
          exact ih st2 ((step_preserves_StackInv config prog st hbal hinv).1 st2 hstep)
            s st1 hrun hs

/-- C5: for every program whose closing brackets are all statically matched
but which has at least one unmatched opening bracket, a terminating run (with
growth allocations succeeding and no left-boundary failure) ends with the
nesting-error status exactly when the end of the stream is reached — the
final read position is the stream length — with a non-empty jump stack, and
not at any earlier character. -/
theorem C5_unmatched_open_nesting_at_eof (config : InterpreterConfig)
    (prog : List Char) (input : List Nat) (fuel : Nat)
    (s : ExecutionStatus) (st1 : MState)
    (hbal : prefixBalanced prog)
    (hopen : open_brackets prog prog.length ≠ [])
    (hrun : execute_brainfuck_from_stream config true prog input fuel = some (s, st1))
    (hs : s ≠ .STATUS_ERR_LBOUND) :
    s = .STATUS_ERR_NESTING ∧ st1.readPos = prog.length ∧
      entries st1.jump_stack ≠ [] := by
  have hinv : StackInv prog (init_state input) := by
    refine ⟨rfl, ⟨rfl, ?_⟩, Nat.zero_le _⟩
    show (0 : Nat) < 100
    norm_num
  exact runFrom_nesting config prog hbal hopen fuel (init_state input) hinv s st1 hrun hs

/-- Witness for C5 at a concrete input: the program consisting of one
increment and one unmatched opening bracket. -/
theorem C5_witness :
    (execute_brainfuck_from_stream ⟨false⟩ true "+[".toList [] 10).map
        (fun r => (r.1, r.2.readPos)) = some (.STATUS_ERR_NESTING, 2) := by
  rcases hrun : execute_brainfuck_from_stream ⟨false⟩ true "+[".toList [] 10 with _ | ⟨s, st1⟩
  · exact absurd hrun (by decide)
  · have hst : s = .STATUS_ERR_NESTING := by
      have he : (execute_brainfuck_from_stream ⟨false⟩ true "+[".toList [] 10).map Prod.fst =
          some .STATUS_ERR_NESTING := by decide
      rw [hrun] at he
      simpa using he
    have h := C5_unmatched_open_nesting_at_eof ⟨false⟩ "+[".toList [] 10 s st1
      (by unfold prefixBalanced; decide) (by decide) hrun (by rw [hst]; decide)
    have hrp : st1.readPos = 2 := h.2.1
    simp [hst, hrp]

/-! ## C1: what the bookmarks denote -/

/-- Any bookmark on the stack after a running step was already on the stack
before it or is the position of an opening-bracket command. -/
theorem step_bookmarks (config : InterpreterConfig) (prog : List Char)
    (st st1 : MState) (hWF : JumpStackWF st.jump_stack)
    (hrun : step config true prog st = .running st1) :
    ∀ b ∈ entries st1.jump_stack,
      b ∈ entries st.jump_stack ∨ prog.getD b ' ' = '[' := by
  cases hch : prog[st.readPos]? with
  | none =>
      rw [step_eq_eof config true prog st hch] at hrun
      split at hrun <;> cases hrun
  | some ch =>
      obtain ⟨hlt, hgd⟩ := getD_of_getElem? prog st.readPos ch hch
      by_cases h1 : ch = '>'
      · subst h1
        rw [step_eq_right config true prog st hch, finishStep_running_iff] at hrun
        obtain ⟨-, rfl⟩ := hrun
        exact fun b hb => Or.inl hb
      · by_cases h2 : ch = '<'
        · subst h2
          rw [step_eq_left config true prog st hch, finishStep_running_iff] at hrun
          obtain ⟨-, rfl⟩ := hrun
          exact fun b hb => Or.inl hb
        · by_cases h3 : ch = '+'
          · subst h3
            rw [step_eq_plus config true prog st hch, finishStep_running_iff] at hrun
            obtain ⟨-, rfl⟩ := hrun
            exact fun b hb => Or.inl hb
          · by_cases h4 : ch = '-'
            · subst h4
              rw [step_eq_minus config true prog st hch, finishStep_running_iff] at hrun
              obtain ⟨-, rfl⟩ := hrun
              exact fun b hb => Or.inl hb
            · by_cases h5 : ch = '.'
              · subst h5
                rw [step_eq_dot config true prog st hch, finishStep_running_iff] at hrun
                obtain ⟨-, rfl⟩ := hrun
                exact fun b hb => Or.inl hb
              · by_cases h6 : ch = ','
                · subst h6
                  rw [step_eq_comma config true prog st hch, finishStep_running_iff] at hrun
                  obtain ⟨-, rfl⟩ := hrun
                  exact fun b hb => Or.inl hb
                · by_cases h7 : ch = '['
                  · subst h7
                    rw [step_eq_lbracket config true prog st hch,
                      finishStep_running_iff] at hrun
                    obtain ⟨-, rfl⟩ := hrun
                    intro b hb
                    obtain ⟨hent2, -⟩ :=
                      tape_jump_if_zero_spec st.tape st.jump_stack st.readPos hWF
                    rw [show ({ st with
                        jump_stack := (tape_jump_if_zero true st.tape st.jump_stack st.readPos).2,
                        readPos := st.readPos + 1 } : MState).jump_stack =
                        (tape_jump_if_zero true st.tape st.jump_stack st.readPos).2 from rfl,
                      hent2] at hb
                    rcases List.mem_append.mp hb with hb1 | hb1
                    · exact Or.inl hb1
                    · simp only [List.mem_singleton] at hb1
                      subst hb1
                      exact Or.inr hgd
                  · by_cases h8 : ch = ']'
                    · subst h8
                      by_cases hp0 : st.jump_stack.pos = 0
                      · rw [step_eq_rbracket config true prog st hch,
                          tape_jump_if_not_zero_empty st.tape st.jump_stack hp0] at hrun
                        dsimp only at hrun
                        rw [finishStep_running_iff] at hrun
                        exact absurd hrun.1 (by decide)
                      · rw [step_eq_rbracket config true prog st hch,
                          tape_jump_if_not_zero_eq st.tape st.jump_stack hp0] at hrun
                        dsimp only at hrun
                        have hexp : entries st.jump_stack =
                            entries { st.jump_stack with pos := st.jump_stack.pos - 1 } ++
                              [st.jump_stack.data.getD st.jump_stack.pos 0] :=
                          entries_concat st.jump_stack hp0
                        have hmem : ∀ b ∈ entries { skip_cleared st.jump_stack with
                              pos := st.jump_stack.pos - 1 },
                            b ∈ entries st.jump_stack := by
                          intro b hb
                          rw [entries_eq_of
                            { skip_cleared st.jump_stack with pos := st.jump_stack.pos - 1 }
                            { st.jump_stack with pos := st.jump_stack.pos - 1 }
                            (by rw [skip_cleared_data]) rfl] at hb
                          rw [hexp]
                          exact List.mem_append.mpr (Or.inl hb)
                        by_cases hcell : tape_cell st.tape ≠ 0
                        · rw [if_pos hcell] at hrun
                          dsimp only at hrun
                          rw [finishStep_running_iff] at hrun
                          obtain ⟨-, rfl⟩ := hrun
                          exact fun b hb => Or.inl (hmem b hb)
                        · rw [if_neg hcell] at hrun
                          dsimp only at hrun
                          rw [finishStep_running_iff] at hrun
                          obtain ⟨-, rfl⟩ := hrun
                          exact fun b hb => Or.inl (hmem b hb)
                    · by_cases h9 : ch = '#'
                      · subst h9
                        rw [step_eq_hash config true prog st hch] at hrun
                        by_cases hdbg : config.debug_enabled = true
                        · rw [if_pos hdbg] at hrun
                          cases hrun
                          exact fun b hb => Or.inl hb
                        · rw [if_neg hdbg] at hrun
                          cases hrun
                          exact fun b hb => Or.inl hb
                      · rw [step_eq_other config true prog st ch hch
                          h1 h2 h3 h4 h5 h6 h7 h8 h9] at hrun
                        cases hrun
                        exact fun b hb => Or.inl hb

/-- C1 counterexample: in the run of "+[", the single bookmark left on the
jump stack at termination is 1, the source position OF the opening bracket
(the position at which it was read), not 2, the position immediately
following it; and in the run of "+[]" the step executing the closing bracket
with a non-zero cell rewinds the read position to 1, so the next character
read is the opening bracket itself, not the first character of the loop
body (which sits at position 2). -/
theorem C1_counterexample :
    (execute_brainfuck_from_stream ⟨false⟩ true "+[".toList [] 10).map
        (fun r => (r.1, r.2.jump_stack.pos,
          r.2.jump_stack.data.getD r.2.jump_stack.pos 0)) =
      some (.STATUS_ERR_NESTING, 1, 1) ∧
    "+[".toList.getD 1 ' ' = '[' ∧ (1 : Nat) ≠ 1 + 1 ∧
    (stateOf (iter ⟨false⟩ true "+[]".toList 3 (init_state []))).readPos = 1 ∧
    "+[]".toList.getD 1 ' ' = '[' :=
  ⟨by decide, by decide, by decide, by decide, by decide⟩

/-- C1 (amended): every bookmark pushed by the opening-bracket command is the
source position at which that bracket itself was read, not the position
following it; a closing bracket executed with the now-current cell non-zero
rewinds the read position exactly to the popped top bookmark; and every
bookmark on the stack remains the position of an opening-bracket command —
so after such a rewind the next character read is that opening bracket
itself, which is then re-executed. -/
theorem C1_bookmark_positions (config : InterpreterConfig) (prog : List Char)
    (st st1 : MState) (hWF : JumpStackWF st.jump_stack)
    (hrun : step config true prog st = .running st1) :
    (prog[st.readPos]? = some '[' →
       st1.jump_stack.data.getD st1.jump_stack.pos 0 = st.readPos) ∧
    (prog[st.readPos]? = some ']' → tape_cell st.tape ≠ 0 →
       st1.readPos = st.jump_stack.data.getD st.jump_stack.pos 0) ∧
    ((∀ b ∈ entries st.jump_stack, prog.getD b ' ' = '[') →
       ∀ b ∈ entries st1.jump_stack, prog.getD b ' ' = '[') := by
  refine ⟨?_, ?_, ?_⟩
  · intro hch
    rw [step_eq_lbracket config true prog st hch, finishStep_running_iff] at hrun
    obtain ⟨-, rfl⟩ := hrun
    obtain ⟨hent2, hwf2⟩ := tape_jump_if_zero_spec st.tape st.jump_stack st.readPos hWF
    have hpos2 : (tape_jump_if_zero true st.tape st.jump_stack st.readPos).2.pos ≠ 0 := by
      have hlen2 := entries_length (tape_jump_if_zero true st.tape st.jump_stack st.readPos).2
      rw [hent2] at hlen2
      simp at hlen2
      omega
    have hc := entries_concat _ hpos2
    rw [hent2] at hc
    have hlast := List.append_inj' hc rfl
    have := hlast.2
    simp only [List.cons.injEq, and_true] at this
    exact this.symm
  · intro hch hcell
    by_cases hp0 : st.jump_stack.pos = 0
    · rw [step_eq_rbracket config true prog st hch,
        tape_jump_if_not_zero_empty st.tape st.jump_stack hp0] at hrun
      dsimp only at hrun
      rw [finishStep_running_iff] at hrun
      exact absurd hrun.1 (by decide)
    · rw [step_eq_rbracket config true prog st hch,
        tape_jump_if_not_zero_eq st.tape st.jump_stack hp0, if_pos hcell] at hrun
      dsimp only at hrun
      rw [finishStep_running_iff] at hrun
      obtain ⟨-, rfl⟩ := hrun
      rfl
  · intro hall b hb
    rcases step_bookmarks config prog st st1 hWF hrun b hb with h | h
    · exact hall b h
    · exact h

/-- Witness for C1's amended theorem at a concrete input: the one-character
bracket program pushes bookmark 0, the position of the bracket itself. -/
theorem C1_witness :
    stC1.jump_stack.data.getD stC1.jump_stack.pos 0 = (init_state []).readPos :=
  (C1_bookmark_positions ⟨false⟩ ['['] (init_state []) stC1 ⟨rfl, by decide⟩
    (by decide)).1 rfl

/-! ## C9: the cursor always stays inside the allocated cells -/

theorem tape_move_right_WF (allocOk : Bool) (tape : Tape) (jump_stack : JumpStack)
    (hWF : TapeWF tape)
    (hok : (tape_move_right allocOk tape jump_stack).1 = .STATUS_OK) :
    TapeWF (tape_move_right allocOk tape jump_stack).2 := by
  obtain ⟨hlen, hp⟩ := hWF
  unfold tape_move_right at hok ⊢
  by_cases hskip : jump_stack.skip_pos.isSome
  · rw [if_pos hskip]
    exact ⟨hlen, hp⟩
  · rw [if_neg hskip] at hok ⊢
    by_cases hfull : tape.pointer = tape.size - 1
    · rw [if_pos hfull] at hok ⊢
      cases allocOk with
      | false => simp at hok
      | true =>
          rw [if_pos rfl]
          refine ⟨?_, ?_⟩
          · dsimp only
            simp only [List.length_append, List.length_replicate]
            omega
          · dsimp only
            omega
    · rw [if_neg hfull] at hok ⊢
      exact ⟨hlen, by dsimp only; omega⟩

theorem tape_move_left_WF (tape : Tape) (jump_stack : JumpStack)
    (hWF : TapeWF tape)
    (_hok : (tape_move_left tape jump_stack).1 = .STATUS_OK) :
    TapeWF (tape_move_left tape jump_stack).2 := by
  obtain ⟨hlen, hp⟩ := hWF
  unfold tape_move_left
  by_cases hskip : jump_stack.skip_pos.isSome
  · rw [if_pos hskip]
    exact ⟨hlen, hp⟩
  · rw [if_neg hskip]
    by_cases hz : tape.pointer = 0
    · rw [if_pos hz]
      exact ⟨hlen, hp⟩
    · rw [if_neg hz]
      exact ⟨hlen, by dsimp only; omega⟩

theorem tape_increment_WF (tape : Tape) (jump_stack : JumpStack) (hWF : TapeWF tape) :
    TapeWF (tape_increment tape jump_stack).2 := by
  obtain ⟨hlen, hp⟩ := hWF
  unfold tape_increment
  split
  · exact ⟨hlen, hp⟩
  · exact ⟨by dsimp only; rw [List.length_set]; exact hlen, by dsimp only; omega⟩

theorem tape_decrement_WF (tape : Tape) (jump_stack : JumpStack) (hWF : TapeWF tape) :
    TapeWF (tape_decrement tape jump_stack).2 := by
  obtain ⟨hlen, hp⟩ := hWF
  unfold tape_decrement
  split
  · exact ⟨hlen, hp⟩
  · exact ⟨by dsimp only; rw [List.length_set]; exact hlen, by dsimp only; omega⟩

theorem tape_input_WF (tape : Tape) (jump_stack : JumpStack) (input : List Nat)
    (hWF : TapeWF tape) :
    TapeWF (tape_input tape jump_stack input).2.1 := by
  obtain ⟨hlen, hp⟩ := hWF
  unfold tape_input
  split
  · exact ⟨hlen, hp⟩
  · split
    · exact ⟨by dsimp only; rw [List.length_set]; exact hlen, by dsimp only; omega⟩
    · exact ⟨by dsimp only; rw [List.length_set]; exact hlen, by dsimp only; omega⟩

/-- One running interpreter step keeps the tape well-formed. -/
theorem step_preserves_TapeWF (config : InterpreterConfig) (allocOk : Bool)
    (prog : List Char) (st st1 : MState) (hWF : TapeWF st.tape)
    (hrun : step config allocOk prog st = .running st1) : TapeWF st1.tape := by
  cases hch : prog[st.readPos]? with
  | none =>
      rw [step_eq_eof config allocOk prog st hch] at hrun
      split at hrun <;> cases hrun
  | some ch =>
      by_cases h1 : ch = '>'
      · subst h1
        rw [step_eq_right config allocOk prog st hch, finishStep_running_iff] at hrun
        obtain ⟨hok, rfl⟩ := hrun
        exact tape_move_right_WF allocOk st.tape st.jump_stack hWF hok
      · by_cases h2 : ch = '<'
        · subst h2
          rw [step_eq_left config allocOk prog st hch, finishStep_running_iff] at hrun
          obtain ⟨hok, rfl⟩ := hrun
          exact tape_move_left_WF st.tape st.jump_stack hWF hok
        · by_cases h3 : ch = '+'
          · subst h3
            rw [step_eq_plus config allocOk prog st hch, finishStep_running_iff] at hrun
            obtain ⟨-, rfl⟩ := hrun
            exact tape_increment_WF st.tape st.jump_stack hWF
          · by_cases h4 : ch = '-'
            · subst h4
              rw [step_eq_minus config allocOk prog st hch, finishStep_running_iff] at hrun
              obtain ⟨-, rfl⟩ := hrun
              exact tape_decrement_WF st.tape st.jump_stack hWF
            · by_cases h5 : ch = '.'
              · subst h5
                rw [step_eq_dot config allocOk prog st hch, finishStep_running_iff] at hrun
                obtain ⟨-, rfl⟩ := hrun
                exact hWF
              · by_cases h6 : ch = ','
                · subst h6
                  rw [step_eq_comma config allocOk prog st hch,
                    finishStep_running_iff] at hrun
                  obtain ⟨-, rfl⟩ := hrun
                  exact tape_input_WF st.tape st.jump_stack st.input hWF
                · by_cases h7 : ch = '['
                  · subst h7
                    rw [step_eq_lbracket config allocOk prog st hch,
                      finishStep_running_iff] at hrun
                    obtain ⟨-, rfl⟩ := hrun
                    exact hWF
                  · by_cases h8 : ch = ']'
                    · subst h8
                      rw [step_eq_rbracket config allocOk prog st hch] at hrun
                      cases htarget : (tape_jump_if_not_zero st.tape st.jump_stack).2.2 with
                      | some b =>
                          rw [htarget] at hrun
                          dsimp only at hrun
                          rw [finishStep_running_iff] at hrun
                          obtain ⟨-, rfl⟩ := hrun
                          exact hWF
                      | none =>
                          rw [htarget] at hrun
                          dsimp only at hrun
                          rw [finishStep_running_iff] at hrun
                          obtain ⟨-, rfl⟩ := hrun
                          exact hWF
                    · by_cases h9 : ch = '#'
                      · subst h9
                        rw [step_eq_hash config allocOk prog st hch] at hrun
                        by_cases hdbg : config.debug_enabled = true
                        · rw [if_pos hdbg] at hrun
                          cases hrun
                          exact hWF
                        · rw [if_neg hdbg] at hrun
                          cases hrun
                          exact hWF
                      · rw [step_eq_other config allocOk prog st ch hch
                          h1 h2 h3 h4 h5 h6 h7 h8 h9] at hrun
                        cases hrun
                        exact hWF

theorem iter_preserves_TapeWF (config : InterpreterConfig) (allocOk : Bool)
    (prog : List Char) :
    ∀ n st st1, TapeWF st.tape →
      iter config allocOk prog n st = .running st1 → TapeWF st1.tape := by
  intro n
  induction n with
  | zero =>
      intro st st1 hWF h
      cases h
      exact hWF
  | succ n ih =>
      intro st st1 hWF h
      simp only [iter] at h
      cases hstep : step config allocOk prog st with
      | running st2 =>
          rw [hstep] at h
          exact ih st2 st1
            (step_preserves_TapeWF config allocOk prog st st2 hWF hstep) h
      | done s2 st2 =>
          rw [hstep] at h
          cases h

/-- C9: the tape cursor is a valid index into the allocated cell sequence —
it never goes below index 0 in this encoding — in the initial state, after
every successful move_right (growth included) and move_left, and in every
state an interpreter run passes through, so no tape operation reads or
writes outside the allocated sequence. -/
theorem C9_cursor_always_in_bounds :
    TapeWF init_tape ∧
    (∀ allocOk tape jump_stack t1, TapeWF tape →
        tape_move_right allocOk tape jump_stack = (.STATUS_OK, t1) → TapeWF t1) ∧
    (∀ tape jump_stack t1, TapeWF tape →
        tape_move_left tape jump_stack = (.STATUS_OK, t1) → TapeWF t1) ∧
    (∀ config allocOk prog input n st1,
        iter config allocOk prog n (init_state input) = .running st1 →
        TapeWF st1.tape) := by
  refine ⟨⟨rfl, by decide⟩, ?_, ?_, ?_⟩
  · intro allocOk tape jump_stack t1 hWF heq
    have h2 := tape_move_right_WF allocOk tape jump_stack hWF (by rw [heq])
    rwa [heq] at h2
  · intro tape jump_stack t1 hWF heq
    have h2 := tape_move_left_WF tape jump_stack hWF (by rw [heq])
    rwa [heq] at h2
  · intro config allocOk prog input n st1 h
    exact iter_preserves_TapeWF config allocOk prog n (init_state input) st1
      ⟨rfl, by show (0 : Nat) < 1000; norm_num⟩ h

/-- Witness for C9 at a concrete input: one successful move_right from the
fresh tape keeps the cursor in bounds. -/
theorem C9_witness : TapeWF { init_tape with pointer := 1 } :=
  C9_cursor_always_in_bounds.2.1 true init_tape init_jump_stack
    { init_tape with pointer := 1 } ⟨rfl, by decide⟩ rfl

/-! ## C10: skip-mode implies a zero current cell -/

theorem jump_stack_push_skip (allocOk : Bool) (jump_stack : JumpStack) (b : Nat) :
    (jump_stack_push allocOk jump_stack b).2.skip_pos = jump_stack.skip_pos := by
  unfold jump_stack_push
  split
  · split <;> rfl
  · rfl

theorem tape_jump_if_zero_skip (allocOk : Bool) (tape : Tape)
    (jump_stack : JumpStack) (b : Nat) (k : Nat)
    (hk : (tape_jump_if_zero allocOk tape jump_stack b).2.skip_pos = some k) :
    jump_stack.skip_pos = some k ∨ tape_cell tape = 0 := by
  simp only [tape_jump_if_zero] at hk
  by_cases hps : (jump_stack_push allocOk jump_stack b).1 ≠ .STATUS_OK
  · rw [if_pos hps] at hk
    exact Or.inl (by rw [← jump_stack_push_skip allocOk jump_stack b]; exact hk)
  · rw [if_neg hps] at hk
    by_cases hsome : (jump_stack_push allocOk jump_stack b).2.skip_pos.isSome
    · rw [if_pos hsome] at hk
      exact Or.inl (by rw [← jump_stack_push_skip allocOk jump_stack b]; exact hk)
    · rw [if_neg hsome] at hk
      by_cases hcell : tape_cell tape = 0
      · exact Or.inr hcell
      · rw [if_neg hcell] at hk
        exact Or.inl (by rw [← jump_stack_push_skip allocOk jump_stack b]; exact hk)

theorem tape_move_right_skip (allocOk : Bool) (tape : Tape) (jump_stack : JumpStack)
    (h : jump_stack.skip_pos.isSome) :
    tape_move_right allocOk tape jump_stack = (.STATUS_OK, tape) := by
  unfold tape_move_right
  rw [if_pos h]

theorem tape_move_left_skip (tape : Tape) (jump_stack : JumpStack)
    (h : jump_stack.skip_pos.isSome) :
    tape_move_left tape jump_stack = (.STATUS_OK, tape) := by
  unfold tape_move_left
  rw [if_pos h]

theorem tape_increment_skip (tape : Tape) (jump_stack : JumpStack)
    (h : jump_stack.skip_pos.isSome) :
    tape_increment tape jump_stack = (.STATUS_OK, tape) := by
  unfold tape_increment
  rw [if_pos h]

theorem tape_decrement_skip (tape : Tape) (jump_stack : JumpStack)
    (h : jump_stack.skip_pos.isSome) :
    tape_decrement tape jump_stack = (.STATUS_OK, tape) := by
  unfold tape_decrement
  rw [if_pos h]

theorem tape_input_skip (tape : Tape) (jump_stack : JumpStack) (input : List Nat)
    (h : jump_stack.skip_pos.isSome) :
    tape_input tape jump_stack input = (.STATUS_OK, tape, input) := by
  unfold tape_input
  rw [if_pos h]

theorem skip_cleared_some (jump_stack : JumpStack) (k : Nat)
    (h : (skip_cleared jump_stack).skip_pos = some k) :
    jump_stack.skip_pos = some k := by
  unfold skip_cleared at h
  split at h
  · cases h
  · exact h

/-- One running interpreter step preserves the skip-mode invariant. -/
theorem step_preserves_SkipInv (config : InterpreterConfig) (allocOk : Bool)
    (prog : List Char) (st st1 : MState)
    (hInv : SkipInv st) (hrun : step config allocOk prog st = .running st1) :
    SkipInv st1 := by
  intro k hk
  cases hch : prog[st.readPos]? with
  | none =>
      rw [step_eq_eof config allocOk prog st hch] at hrun
      split at hrun <;> cases hrun
  | some ch =>
      by_cases h1 : ch = '>'
      · subst h1
        rw [step_eq_right config allocOk prog st hch, finishStep_running_iff] at hrun
        obtain ⟨-, rfl⟩ := hrun
        dsimp only at hk ⊢
        have hskip : st.jump_stack.skip_pos.isSome := by rw [hk]; rfl
        rw [show (tape_move_right allocOk st.tape st.jump_stack).2 = st.tape from by
          rw [tape_move_right_skip allocOk st.tape st.jump_stack hskip]]
        exact hInv k hk
      · by_cases h2 : ch = '<'
        · subst h2
          rw [step_eq_left config allocOk prog st hch, finishStep_running_iff] at hrun
          obtain ⟨-, rfl⟩ := hrun
          dsimp only at hk ⊢
          have hskip : st.jump_stack.skip_pos.isSome := by rw [hk]; rfl
          rw [show (tape_move_left st.tape st.jump_stack).2 = st.tape from by
            rw [tape_move_left_skip st.tape st.jump_stack hskip]]
          exact hInv k hk
        · by_cases h3 : ch = '+'
          · subst h3
            rw [step_eq_plus config allocOk prog st hch, finishStep_running_iff] at hrun
            obtain ⟨-, rfl⟩ := hrun
            dsimp only at hk ⊢
            have hskip : st.jump_stack.skip_pos.isSome := by rw [hk]; rfl
            rw [show (tape_increment st.tape st.jump_stack).2 = st.tape from by
              rw [tape_increment_skip st.tape st.jump_stack hskip]]
            exact hInv k hk
          · by_cases h4 : ch = '-'
            · subst h4
              rw [step_eq_minus config allocOk prog st hch, finishStep_running_iff] at hrun
              obtain ⟨-, rfl⟩ := hrun
              dsimp only at hk ⊢
              have hskip : st.jump_stack.skip_pos.isSome := by rw [hk]; rfl
              rw [show (tape_decrement st.tape st.jump_stack).2 = st.tape from by
                rw [tape_decrement_skip st.tape st.jump_stack hskip]]
              exact hInv k hk
            · by_cases h5 : ch = '.'
              · subst h5
                rw [step_eq_dot config allocOk prog st hch, finishStep_running_iff] at hrun
                obtain ⟨-, rfl⟩ := hrun
                exact hInv k hk
              · by_cases h6 : ch = ','
                · subst h6
                  rw [step_eq_comma config allocOk prog st hch,
                    finishStep_running_iff] at hrun
                  obtain ⟨-, rfl⟩ := hrun
                  dsimp only at hk ⊢
                  have hskip : st.jump_stack.skip_pos.isSome := by rw [hk]; rfl
                  rw [show (tape_input st.tape st.jump_stack st.input).2.1 = st.tape from by
                    rw [tape_input_skip st.tape st.jump_stack st.input hskip]]
                  exact hInv k hk
                · by_cases h7 : ch = '['
                  · subst h7
                    rw [step_eq_lbracket config allocOk prog st hch,
                      finishStep_running_iff] at hrun
                    obtain ⟨-, rfl⟩ := hrun
                    dsimp only at hk ⊢
                    rcases tape_jump_if_zero_skip allocOk st.tape st.jump_stack
                        st.readPos k hk with h | h
                    · exact hInv k h
                    · exact h
                  · by_cases h8 : ch = ']'
                    · subst h8
                      by_cases hp0 : st.jump_stack.pos = 0
                      · rw [step_eq_rbracket config allocOk prog st hch,
                          tape_jump_if_not_zero_empty st.tape st.jump_stack hp0] at hrun
                        dsimp only at hrun
                        rw [finishStep_running_iff] at hrun
                        exact absurd hrun.1 (by decide)
                      · rw [step_eq_rbracket config allocOk prog st hch,
                          tape_jump_if_not_zero_eq st.tape st.jump_stack hp0] at hrun
                        dsimp only at hrun
                        by_cases hcell : tape_cell st.tape ≠ 0
                        · rw [if_pos hcell] at hrun
                          dsimp only at hrun
                          rw [finishStep_running_iff] at hrun
                          obtain ⟨-, rfl⟩ := hrun
                          dsimp only at hk ⊢
                          exact hInv k (skip_cleared_some st.jump_stack k hk)
                        · rw [if_neg hcell] at hrun
                          dsimp only at hrun
                          rw [finishStep_running_iff] at hrun
                          obtain ⟨-, rfl⟩ := hrun
                          dsimp only at hk ⊢
                          exact hInv k (skip_cleared_some st.jump_stack k hk)
                    · by_cases h9 : ch = '#'
                      · subst h9
                        rw [step_eq_hash config allocOk prog st hch] at hrun
                        by_cases hdbg : config.debug_enabled = true
                        · rw [if_pos hdbg] at hrun
                          cases hrun
                          exact hInv k hk
                        · rw [if_neg hdbg] at hrun
                          cases hrun
                          exact hInv k hk
                      · rw [step_eq_other config allocOk prog st ch hch
                          h1 h2 h3 h4 h5 h6 h7 h8 h9] at hrun
                        cases hrun
                        exact hInv k hk

theorem iter_preserves_SkipInv (config : InterpreterConfig) (allocOk : Bool)
    (prog : List Char) :
    ∀ n st st1, SkipInv st →
      iter config allocOk prog n st = .running st1 → SkipInv st1 := by
  intro n
  induction n with
  | zero =>
      intro st st1 hInv h
      cases h
      exact hInv
  | succ n ih =>
      intro st st1 hInv h
      simp only [iter] at h
      cases hstep : step config allocOk prog st with
      | running st2 =>
          rw [hstep] at h
          exact ih st2 st1
            (step_preserves_SkipInv config allocOk prog st st2 hInv hstep) h
      | done s2 st2 =>
          rw [hstep] at h
          cases h

/-- C10: in every state an interpreter run passes through, an active skip
marker implies that the current cell is zero; consequently a closing bracket
processed while skip-mode remains active after the clear-check (the marker
differs from the stack top) never rewinds: the read position moves one
character forward. -/
theorem C10_skip_mode_cell_zero :
    (∀ input, SkipInv (init_state input)) ∧
    (∀ config allocOk prog input n st1,
        iter config allocOk prog n (init_state input) = .running st1 →
        SkipInv st1) ∧
    (∀ config allocOk prog st st1 k, SkipInv st →
        prog[st.readPos]? = some ']' →
        st.jump_stack.skip_pos = some k → k ≠ st.jump_stack.pos →
        step config allocOk prog st = .running st1 →
        st1.readPos = st.readPos + 1) := by
  refine ⟨?_, ?_, ?_⟩
  · intro input k hk
    cases hk
  · intro config allocOk prog input n st1 h
    exact iter_preserves_SkipInv config allocOk prog n (init_state input) st1
      (fun k hk => by cases hk) h
  · intro config allocOk prog st st1 k hInv hch hskip hne hrun
    have hcell : tape_cell st.tape = 0 := hInv k hskip
    by_cases hp0 : st.jump_stack.pos = 0
    · rw [step_eq_rbracket config allocOk prog st hch,
        tape_jump_if_not_zero_empty st.tape st.jump_stack hp0] at hrun
      dsimp only at hrun
      rw [finishStep_running_iff] at hrun
      exact absurd hrun.1 (by decide)
    · rw [step_eq_rbracket config allocOk prog st hch,
        tape_jump_if_not_zero_eq st.tape st.jump_stack hp0,
        if_neg (by simp [hcell])] at hrun
      dsimp only at hrun
      rw [finishStep_running_iff] at hrun
      obtain ⟨-, rfl⟩ := hrun
      rfl

/-- Witness for C10 at a concrete input: in the double-bracket program the
inner closing bracket is processed with skip-mode still active and the read
position moves forward by one. -/
theorem C10_witness :
    (stateOf (iter ⟨false⟩ true "[[]]".toList 3 (init_state []))).readPos =
      (stateOf (iter ⟨false⟩ true "[[]]".toList 2 (init_state []))).readPos + 1 :=
  C10_skip_mode_cell_zero.2.2 ⟨false⟩ true "[[]]".toList
    (stateOf (iter ⟨false⟩ true "[[]]".toList 2 (init_state [])))
    (stateOf (iter ⟨false⟩ true "[[]]".toList 3 (init_state []))) 1
    (fun _ _ => by decide) (by decide) (by decide) (by decide) (by decide)

/-! ## C4: the spec's Scenario 1 program -/

theorem finishStep_setInput (s : ExecutionStatus) (st : MState) (newPos : Nat)
    (inp : List Nat) :
    finishStep s (setInput st inp) newPos =
      mapState (fun st2 => setInput st2 inp) (finishStep s st newPos) := by
  by_cases h : s = .STATUS_OK <;> simp [finishStep, mapState, setInput, h]

/-- On a program with no input command, one step from a state with replaced
input is the step from the original state with its input replaced. -/
theorem step_setInput (config : InterpreterConfig) (allocOk : Bool)
    (prog : List Char) (st : MState) (inp : List Nat) (hnc : ',' ∉ prog) :
    step config allocOk prog (setInput st inp) =
      mapState (fun st2 => setInput st2 inp) (step config allocOk prog st) := by
  cases hch : prog[st.readPos]? with
  | none =>
      rw [step_eq_eof config allocOk prog (setInput st inp) hch,
        step_eq_eof config allocOk prog st hch]
      by_cases hp : st.jump_stack.pos ≠ 0
      · rw [if_pos hp, if_pos (show (setInput st inp).jump_stack.pos ≠ 0 from hp)]
        rfl
      · rw [if_neg hp, if_neg (show ¬(setInput st inp).jump_stack.pos ≠ 0 from hp)]
        rfl
  | some ch =>
      have hchm : ch ∈ prog := List.getElem?_mem hch
      have h6 : ch ≠ ',' := fun h => hnc (h ▸ hchm)
      by_cases h1 : ch = '>'
      · subst h1
        rw [step_eq_right config allocOk prog (setInput st inp) hch,
          step_eq_right config allocOk prog st hch, ← finishStep_setInput]
        rfl
      · by_cases h2 : ch = '<'
        · subst h2
          rw [step_eq_left config allocOk prog (setInput st inp) hch,
            step_eq_left config allocOk prog st hch, ← finishStep_setInput]
          rfl
        · by_cases h3 : ch = '+'
          · subst h3
            rw [step_eq_plus config allocOk prog (setInput st inp) hch,
              step_eq_plus config allocOk prog st hch, ← finishStep_setInput]
            rfl
          · by_cases h4 : ch = '-'
            · subst h4
              rw [step_eq_minus config allocOk prog (setInput st inp) hch,
                step_eq_minus config allocOk prog st hch, ← finishStep_setInput]
              rfl
            · by_cases h5 : ch = '.'
              · subst h5
                rw [step_eq_dot config allocOk prog (setInput st inp) hch,
                  step_eq_dot config allocOk prog st hch, ← finishStep_setInput]
                rfl
              · by_cases h7 : ch = '['
                · subst h7
                  rw [step_eq_lbracket config allocOk prog (setInput st inp) hch,
                    step_eq_lbracket config allocOk prog st hch, ← finishStep_setInput]
                  rfl
                · by_cases h8 : ch = ']'
                  · subst h8
                    rw [step_eq_rbracket config allocOk prog (setInput st inp) hch,
                      step_eq_rbracket config allocOk prog st hch]
                    cases htarget : (tape_jump_if_not_zero st.tape st.jump_stack).2.2 with
                    | some b =>
                        have htarget2 : (tape_jump_if_not_zero (setInput st inp).tape
                            (setInput st inp).jump_stack).2.2 = some b := htarget
                        rw [htarget2]
                        dsimp only
                        rw [← finishStep_setInput]
                        rfl
                    | none =>
                        have htarget2 : (tape_jump_if_not_zero (setInput st inp).tape
                            (setInput st inp).jump_stack).2.2 = none := htarget
                        rw [htarget2]
                        dsimp only
                        rw [← finishStep_setInput]
                        rfl
                  · by_cases h9 : ch = '#'
                    · subst h9
                      rw [step_eq_hash config allocOk prog (setInput st inp) hch,
                        step_eq_hash config allocOk prog st hch]
                      by_cases hdbg : config.debug_enabled = true
                      · rw [if_pos hdbg, if_pos hdbg]
                        rfl
                      · rw [if_neg hdbg, if_neg hdbg]
                        rfl
                    · rw [step_eq_other config allocOk prog (setInput st inp) ch hch
                        h1 h2 h3 h4 h5 h6 h7 h8 h9,
                        step_eq_other config allocOk prog st ch hch
                        h1 h2 h3 h4 h5 h6 h7 h8 h9]
                      rfl

/-- On a program with no input command, the run's outcome does not consult
the input: replacing the input only replaces it in the final state. -/
theorem runFrom_setInput (config : InterpreterConfig) (allocOk : Bool)
    (prog : List Char) (hnc : ',' ∉ prog) :
    ∀ fuel st inp,
      runFrom config allocOk prog fuel (setInput st inp) =
        (runFrom config allocOk prog fuel st).map
          (fun r => (r.1, setInput r.2 inp)) := by
  intro fuel
  induction fuel with
  | zero => intro st inp; rfl
  | succ n ih =>
      intro st inp
      simp only [runFrom]
      rw [step_setInput config allocOk prog st inp hnc]
      cases hstep : step config allocOk prog st with
      | done s2 st2 =>
          rfl
      | running st2 =>
          dsimp only [mapState]
          exact ih st2 inp

/-- C4 counterexample: on the spec's Scenario 1 program the interpreter
terminates with STATUS_OK but the bytes written are those of
"Hello World !" — with a space before the exclamation mark — and those are
not the bytes of "Hello World!". -/
theorem C4_counterexample :
    (execute_brainfuck_from_stream ⟨false⟩ true hwProg [] 1000).map
        (fun r => (r.1, r.2.output)) =
      some (.STATUS_OK, "Hello World !".toList.map Char.toNat) ∧
    "Hello World !".toList.map Char.toNat ≠ "Hello World!".toList.map Char.toNat :=
  ⟨by decide, by decide⟩

/-- C4 (amended): running the interpreter on the spec's Scenario 1 program
with any input writes exactly the text "Hello World !" — a space precedes
the exclamation mark — to the output sink and terminates with STATUS_OK. -/
theorem C4_hello_world (input : List Nat) :
    (execute_brainfuck_from_stream ⟨false⟩ true hwProg input 1000).map
      (fun r => (r.1, r.2.output)) =
      some (.STATUS_OK, "Hello World !".toList.map Char.toNat) := by
  have hnc : ',' ∉ hwProg := by decide
  have h0 : init_state input = setInput (init_state []) input := rfl
  unfold execute_brainfuck_from_stream
  rw [h0, runFrom_setInput ⟨false⟩ true hwProg hnc 1000 (init_state []) input,
    Option.map_map]
  have hev : (runFrom ⟨false⟩ true hwProg 1000 (init_state [])).map
      (fun r => (r.1, r.2.output)) =
      some (.STATUS_OK, "Hello World !".toList.map Char.toNat) := by decide
  exact hev

end MaxBF
